import Mathlib

/-! JitRt function-boundary types and diagnostics

A shallow embedding of `backends/jitrt/lib/types.cc` (type printing, element
type / type / function signature conversion) and of
`backends/jitrt/lib/diagnostics.cc` (in-flight diagnostics), followed by the
properties proved about them.

Conventions of the embedding:

* `Expected<T>` is `Except String T`; the string is the error message built by
  `MakeStringError`, which concatenates the printed forms of its arguments.
* Writing to a `raw_ostream` is modelled by returning the text written.
* The printer of IR types (`mlir::Type`) and the printer of `DType` live
  outside the embedded files; every definition that prints one of them takes
  the printer as an argument (`irText`, `dtypeText`).
* `Index` is a 64-bit signed integer; a shape is a `List Int` holding the
  stored values, whatever they stand for (a dynamic dimension is stored as the
  IR library's marker value and is copied like any other value).
-/

namespace jitrt

/-! ## IR side: `mlir::Type` as inspected by the conversion functions -/

/-- Signedness semantics of an IR integer type (`mlir::IntegerType`). -/
inductive Signedness where
  | Signless
  | Signed
  | Unsigned
deriving DecidableEq, Repr

/-- IR types (`mlir::Type`), with the type classes that `types.cc` tests for
and a few that it does not (`f16`, `bf16`, `index`, and `other` for any type of
some other dialect, named by its text). -/
inductive MType where
  | F16
  | BF16
  | F32
  | F64
  | Index
  | Integer (width : Nat) (signedness : Signedness)
  | Complex (elementType : MType)
  | AsyncToken
  | AsyncValue (valueType : MType)
  | RankedTensor (shape : List Int) (elementType : MType)
  | UnrankedTensor (elementType : MType)
  | MemRef (shape : List Int) (elementType : MType)
  | UnrankedMemRef (elementType : MType)
  | KernelContext
  | Other (name : String)
deriving DecidableEq, Repr

namespace MType

/-- The test `type.isF32()`. -/
def isF32 : MType → Bool
  | F32 => true
  | _ => false

/-- The test `type.isF64()`. -/
def isF64 : MType → Bool
  | F64 => true
  | _ => false

/-- The test `type.isInteger(width)`: an integer type of that width, of any
signedness. -/
def isInteger (type : MType) (width : Nat) : Bool :=
  match type with
  | Integer w _ => w == width
  | _ => false

/-- The test `type.isUnsignedInteger(width)`: an unsigned integer type of that
width. -/
def isUnsignedInteger (type : MType) (width : Nat) : Bool :=
  match type with
  | Integer w Signedness.Unsigned => w == width
  | _ => false

/-- The cast `type.dyn_cast<mlir::ComplexType>()`, giving the element type. -/
def dynCastComplex : MType → Option MType
  | Complex el => some el
  | _ => none

/-- The test `type.isa<mlir::MemRefType>()`: a ranked memref. -/
def isaMemRef : MType → Bool
  | MemRef _ _ => true
  | _ => false

end MType

/-- An IR function type (`mlir::FunctionType`): inputs and results in
declaration order. -/
structure MFunctionType where
  inputs : List MType
  results : List MType
deriving DecidableEq, Repr

/-! ## Runtime side -/

/-- Modelled from the spec: the `DType` enumeration is declared outside the
embedded files; the spec gives it as the closed enumeration of these thirteen
values, all of which `ConvertElementType` names. -/
inductive DType where
  | I1 | I8 | I16 | I32 | I64
  | UI8 | UI16 | UI32 | UI64
  | F32 | F64
  | Complex64 | Complex128
deriving DecidableEq, Repr

/-- Runtime types at the function boundary (`tfrt::jitrt::Type` and its
subclasses, one constructor per subclass that `types.cc` prints or builds). -/
inductive RuntimeType where
  | AsyncTokenType
  | AsyncValueType (value_type : RuntimeType)
  | RankedTensorType (sizes : List Int) (element_type : DType)
  | UnrankedTensorType (element_type : DType)
  | MemrefType (sizes : List Int) (element_type : DType)
  | UnrankedMemrefType (element_type : DType)
  | KernelContextOperandType
deriving DecidableEq, Repr

/-- The runtime function type: operands and results. -/
structure FunctionType where
  operands : List RuntimeType
  results : List RuntimeType
deriving DecidableEq, Repr

/-! ## Printing (`operator<<(raw_ostream&, const Type&)`) -/

/-- The lambda `print_arr`: nothing for an empty array, otherwise the first
value followed by `x` and the value for each later position. -/
def print_arr (arr : List Int) : String :=
  match arr with
  | [] => ""
  | a :: rest => rest.foldl (fun os d => os ++ "x" ++ toString d) (toString a)

/-- The text that `operator<<` writes for a runtime type. `dtypeText` is the
printer of `DType`. The final `else` branch of the source (`<unknown type>`)
is taken by no subclass of the hierarchy embedded here. -/
def printType (dtypeText : DType → String) : RuntimeType → String
  | .AsyncTokenType => "!async.token"
  | .AsyncValueType value => "!async.value<" ++ printType dtypeText value ++ ">"
  | .RankedTensorType sizes el =>
      "tensor<" ++ print_arr sizes ++ "x" ++ dtypeText el ++ ">"
  | .UnrankedTensorType el => "tensor<" ++ "*x" ++ dtypeText el ++ ">"
  | .MemrefType sizes el =>
      "memref<" ++ print_arr sizes ++ "x" ++ dtypeText el ++ ">"
  | .UnrankedMemrefType el => "memref<" ++ "*x" ++ dtypeText el ++ ">"
  | .KernelContextOperandType => "!rt.kernel_context"

/-! ## Conversion from IR types -/

/-- The function `ConvertElementType`. The tests run in the order of the
source; the error names the offending type through `irText`. -/
def ConvertElementType (irText : MType → String) (type : MType) :
    Except String DType :=
  if type.isF32 then .ok DType.F32
  else if type.isF64 then .ok DType.F64
  else if type.isUnsignedInteger 8 then .ok DType.UI8
  else if type.isUnsignedInteger 16 then .ok DType.UI16
  else if type.isUnsignedInteger 32 then .ok DType.UI32
  else if type.isUnsignedInteger 64 then .ok DType.UI64
  else if type.isInteger 1 then .ok DType.I1
  else if type.isInteger 8 then .ok DType.I8
  else if type.isInteger 16 then .ok DType.I16
  else if type.isInteger 32 then .ok DType.I32
  else if type.isInteger 64 then .ok DType.I64
  else
    let fromComplex : Option DType :=
      match type.dynCastComplex with
      | some element_type =>
          if element_type.isF32 then some DType.Complex64
          else if element_type.isF64 then some DType.Complex128
          else none
      | none => none
    match fromComplex with
    | some d => .ok d
    | none => .error ("unsupported element type: " ++ irText type)

/-- The function `ConvertType`. The `dyn_cast` chain of the source is the
order of the match arms; every IR type not named falls to the last arm. -/
def ConvertType (irText : MType → String) : MType → Except String RuntimeType
  | .AsyncToken => .ok .AsyncTokenType
  | .AsyncValue valueType =>
      if !valueType.isaMemRef then
        .error "async value can only hold memref type"
      else
        match ConvertType irText valueType with
        | .error err => .error err
        | .ok value_type => .ok (.AsyncValueType value_type)
  | .RankedTensor shape el =>
      match ConvertElementType irText el with
      | .error err => .error err
      | .ok element_type => .ok (.RankedTensorType shape element_type)
  | .UnrankedTensor el =>
      match ConvertElementType irText el with
      | .error err => .error err
      | .ok element_type => .ok (.UnrankedTensorType element_type)
  | .MemRef shape el =>
      match ConvertElementType irText el with
      | .error err => .error err
      | .ok element_type => .ok (.MemrefType shape element_type)
  | .UnrankedMemRef el =>
      match ConvertElementType irText el with
      | .error err => .error err
      | .ok element_type => .ok (.UnrankedMemrefType element_type)
  | .KernelContext => .ok .KernelContextOperandType
  | type => .error ("unsupported type: " ++ irText type)

/-- The lambda `error` of `FunctionType::Convert`: the message naming the
kind (`input` or `result`), the index, the IR type and the underlying error. -/
def conversionError (irText : MType → String) (kind : String) (i : Nat)
    (type : MType) (err : String) : String :=
  "can't convert " ++ kind ++ " #" ++ toString i ++ " type " ++ irText type ++
    " to the runtime type: " ++ err

/-- One of the two loops of `FunctionType::Convert`: `types` are the types
from position `i` on, `converted` the vector filled so far. The loop stops at
the first type that `ConvertType` rejects. (The counter of the source is an
`unsigned` bounded by an `unsigned` count, so it does not wrap.) -/
def convertLoop (irText : MType → String) (kind : String) :
    List MType → Nat → List RuntimeType → Except String (List RuntimeType)
  | [], _, converted => .ok converted
  | type :: rest, i, converted =>
      match ConvertType irText type with
      | .error err => .error (conversionError irText kind i type err)
      | .ok c => convertLoop irText kind rest (i + 1) (converted ++ [c])

/-- The function `FunctionType::Convert`: the inputs, then the results. -/
def FunctionType.Convert (irText : MType → String) (type : MFunctionType) :
    Except String FunctionType :=
  match convertLoop irText "input" type.inputs 0 [] with
  | .error err => .error err
  | .ok operands =>
      match convertLoop irText "result" type.results 0 [] with
      | .error err => .error err
      | .ok results => .ok { operands := operands, results := results }

/-! ## Predicates used to state the properties -/

/-- The IR type belongs to one of the seven type classes that `ConvertType`
has an arm for. -/
def MType.isBoundaryKind : MType → Bool
  | .AsyncToken => true
  | .AsyncValue _ => true
  | .RankedTensor _ _ => true
  | .UnrankedTensor _ => true
  | .MemRef _ _ => true
  | .UnrankedMemRef _ => true
  | .KernelContext => true
  | _ => false

/-- The runtime type is a `MemrefType` (a ranked memref). -/
def RuntimeType.isMemref : RuntimeType → Bool
  | .MemrefType _ _ => true
  | _ => false

/-- Every `AsyncValueType` node of the runtime type wraps a `MemrefType`. -/
def RuntimeType.asyncValuesHoldMemref : RuntimeType → Bool
  | .AsyncValueType value => value.isMemref && value.asyncValuesHoldMemref
  | _ => true

/-- No `RankedTensorType` or `MemrefType` node of the runtime type has an empty
list of sizes. -/
def RuntimeType.shapesNonEmpty : RuntimeType → Bool
  | .AsyncValueType value => value.shapesNonEmpty
  | .RankedTensorType sizes _ => !sizes.isEmpty
  | .MemrefType sizes _ => !sizes.isEmpty
  | _ => true

/-- The canonical text of a runtime type in the words of the specification:
ranked shapes print `D0xD1x...xElem` (the sizes in order, then the element,
joined by `x`) after the prefix `tensor<` or `memref<` and before `>`,
unranked shapes print `*xElem`, a token prints `!async.token`, an async value
prints `!async.value<` the wrapped type `>`, the kernel context prints
`!rt.kernel_context`. This definition follows the specification, not
`operator<<`; `printType` is compared with it. -/
def canonicalText (dtypeText : DType → String) : RuntimeType → String
  | .AsyncTokenType => "!async.token"
  | .AsyncValueType value => "!async.value<" ++ canonicalText dtypeText value ++ ">"
  | .RankedTensorType sizes el =>
      "tensor<" ++ "x".intercalate (sizes.map toString ++ [dtypeText el]) ++ ">"
  | .UnrankedTensorType el => "tensor<" ++ "x".intercalate ["*", dtypeText el] ++ ">"
  | .MemrefType sizes el =>
      "memref<" ++ "x".intercalate (sizes.map toString ++ [dtypeText el]) ++ ">"
  | .UnrankedMemrefType el => "memref<" ++ "x".intercalate ["*", dtypeText el] ++ ">"
  | .KernelContextOperandType => "!rt.kernel_context"

/-! ## Diagnostics (`diagnostics.cc`) -/

/-- A diagnostic: the structured message handed to the engine; only its
identity matters here. -/
structure Diagnostic where
  message : String
deriving DecidableEq, Repr

/-- An in-flight diagnostic: the pointer `engine_` (`none` is `nullptr`; an
engine is named by a number) and the optional `diagnostic_`. -/
structure InFlightDiagnostic where
  engine_ : Option Nat
  diagnostic_ : Option Diagnostic
deriving DecidableEq, Repr

/-- Modelled from the spec: `IsInFlight` is declared in the header, outside the
embedded files; an in-flight diagnostic is one still attached to an engine. -/
def InFlightDiagnostic.IsInFlight (d : InFlightDiagnostic) : Bool :=
  d.engine_.isSome

/-- The record of every `Emit` call made so far, oldest first: the engine
called and the diagnostic handed to it. -/
abbrev EmitLog := List (Nat × Diagnostic)

/-- Modelled from the spec: `DiagnosticEngine::Emit` is defined in the header,
outside the embedded files; it appends the diagnostic to the log of the
engine. -/
def DiagnosticEngine.Emit (engine : Nat) (diagnostic : Diagnostic)
    (log : EmitLog) : EmitLog :=
  log ++ [(engine, diagnostic)]

/-- The method `InFlightDiagnostic::Report`, on the object and the log. The
result is `none` where the source dereferences an empty `diagnostic_` (an
engine is attached but no diagnostic is held), which is undefined
behaviour. -/
def InFlightDiagnostic.Report (d : InFlightDiagnostic) (log : EmitLog) :
    Option (InFlightDiagnostic × EmitLog) :=
  if d.IsInFlight then
    match d.engine_, d.diagnostic_ with
    | some engine, some diagnostic =>
        some ({ engine_ := none, diagnostic_ := none },
          DiagnosticEngine.Emit engine diagnostic log)
    | _, _ => none
  else
    some ({ d with diagnostic_ := none }, log)

/-- The method `InFlightDiagnostic::Abandon`: only `engine_` is reset. -/
def InFlightDiagnostic.Abandon (d : InFlightDiagnostic) (log : EmitLog) :
    Option (InFlightDiagnostic × EmitLog) :=
  some ({ d with engine_ := none }, log)

/-- `n` calls of `Report` in a row. -/
def InFlightDiagnostic.reportTimes :
    Nat → InFlightDiagnostic → EmitLog → Option (InFlightDiagnostic × EmitLog)
  | 0, d, log => some (d, log)
  | n + 1, d, log =>
      match d.Report log with
      | none => none
      | some (d1, log1) => InFlightDiagnostic.reportTimes n d1 log1

/-! ## Concrete printers, used at concrete inputs only

Every theorem below holds for all printers `irText` and `dtypeText`; the two
printers defined here serve to evaluate the definitions on examples. -/

/-- The spelling of an IR integer type: `i`, `si` or `ui` and the width. -/
def integerText (width : Nat) : Signedness → String
  | .Signless => "i" ++ toString width
  | .Signed => "si" ++ toString width
  | .Unsigned => "ui" ++ toString width

/-- The dimension list of a ranked IR type in the IR's own syntax: each size
followed by `x`, a negative stored size (the dynamic marker) written `?`. -/
def irShapeText : List Int → String
  | [] => ""
  | d :: ds => (if d < 0 then "?" else toString d) ++ "x" ++ irShapeText ds

/-- A printer of IR types in the IR's textual syntax. -/
def irTypeText : MType → String
  | .F16 => "f16"
  | .BF16 => "bf16"
  | .F32 => "f32"
  | .F64 => "f64"
  | .Index => "index"
  | .Integer width signedness => integerText width signedness
  | .Complex el => "complex<" ++ irTypeText el ++ ">"
  | .AsyncToken => "!async.token"
  | .AsyncValue value => "!async.value<" ++ irTypeText value ++ ">"
  | .RankedTensor shape el => "tensor<" ++ irShapeText shape ++ irTypeText el ++ ">"
  | .UnrankedTensor el => "tensor<*x" ++ irTypeText el ++ ">"
  | .MemRef shape el => "memref<" ++ irShapeText shape ++ irTypeText el ++ ">"
  | .UnrankedMemRef el => "memref<*x" ++ irTypeText el ++ ">"
  | .KernelContext => "!rt.kernel_context"
  | .Other name => name

/-- Modelled from the spec: the printer of `DType` is outside the embedded
files; the spec's examples print `F32` as `f32` and `I32` as `i32`, and this
printer spells every value of the enumeration in that way. -/
def dtypeName : DType → String
  | .I1 => "i1"
  | .I8 => "i8"
  | .I16 => "i16"
  | .I32 => "i32"
  | .I64 => "i64"
  | .UI8 => "ui8"
  | .UI16 => "ui16"
  | .UI32 => "ui32"
  | .UI64 => "ui64"
  | .F32 => "f32"
  | .F64 => "f64"
  | .Complex64 => "complex64"
  | .Complex128 => "complex128"

/-- A call made on an in-flight diagnostic. -/
inductive DiagnosticCall where
  | Report
  | Abandon
deriving DecidableEq, Repr

/-- One call on the object and the log. -/
def InFlightDiagnostic.call (c : DiagnosticCall) (d : InFlightDiagnostic)
    (log : EmitLog) : Option (InFlightDiagnostic × EmitLog) :=
  match c with
  | .Report => d.Report log
  | .Abandon => d.Abandon log

/-- A sequence of calls on one object, first call first. -/
def InFlightDiagnostic.run :
    List DiagnosticCall → InFlightDiagnostic → EmitLog →
      Option (InFlightDiagnostic × EmitLog)
  | [], d, log => some (d, log)
  | c :: cs, d, log =>
      match d.call c log with
      | none => none
      | some (d1, log1) => InFlightDiagnostic.run cs d1 log1

/-! ## The default diagnostic engine (`DiagnosticEngine::DefaultDiagnosticEngine`) -/

/-- The part of the process state that `DefaultDiagnosticEngine` touches: the
function-local static pointer `diagnostic_engine` (`none` until its
initialiser has run) and the heap, of which only the address that the next
`new` returns matters. -/
structure ProcessState where
  diagnostic_engine : Option Nat
  nextAddress : Nat
deriving DecidableEq, Repr

/-- The function `DiagnosticEngine::DefaultDiagnosticEngine`: the initialiser
`new DiagnosticEngine()` of the static runs on the first call only; every call
returns the static. -/
def DiagnosticEngine.DefaultDiagnosticEngine (s : ProcessState) :
    Nat × ProcessState :=
  match s.diagnostic_engine with
  | some engine => (engine, s)
  | none =>
      (s.nextAddress,
        { diagnostic_engine := some s.nextAddress, nextAddress := s.nextAddress + 1 })

/-- What a process does with respect to the static: it calls
`DefaultDiagnosticEngine`, or it runs other code, which may allocate but has
no access to a function-local static. -/
inductive ProcessOp where
  | CallDefaultDiagnosticEngine
  | OtherAllocation
deriving DecidableEq, Repr

/-- A sequence of operations: the pointers returned by the calls of
`DefaultDiagnosticEngine`, in order, and the final state. -/
def runProcess : List ProcessOp → ProcessState → List Nat × ProcessState
  | [], s => ([], s)
  | .CallDefaultDiagnosticEngine :: ops, s =>
      let r := DiagnosticEngine.DefaultDiagnosticEngine s
      let rest := runProcess ops r.2
      (r.1 :: rest.1, rest.2)
  | .OtherAllocation :: ops, s =>
      runProcess ops { s with nextAddress := s.nextAddress + 1 }

/-! ## The open class hierarchy behind `operator<<` -/

/-- An object of the class hierarchy rooted at `Type`, by its dynamic class:
one of the seven subclasses that `operator<<` tests for, or some other
subclass, named. The hierarchy is open in the source; `RuntimeType` is the
part of it that `types.cc` builds. -/
inductive TypeObject where
  | AsyncTokenType
  | AsyncValueType (value_type : TypeObject)
  | RankedTensorType (sizes : List Int) (element_type : DType)
  | UnrankedTensorType (element_type : DType)
  | MemrefType (sizes : List Int) (element_type : DType)
  | UnrankedMemrefType (element_type : DType)
  | KernelContextOperandType
  | OtherType (className : String)
deriving DecidableEq, Repr

/-- A runtime type as an object of the hierarchy. -/
def RuntimeType.toObject : RuntimeType → TypeObject
  | .AsyncTokenType => .AsyncTokenType
  | .AsyncValueType value => .AsyncValueType value.toObject
  | .RankedTensorType sizes el => .RankedTensorType sizes el
  | .UnrankedTensorType el => .UnrankedTensorType el
  | .MemrefType sizes el => .MemrefType sizes el
  | .UnrankedMemrefType el => .UnrankedMemrefType el
  | .KernelContextOperandType => .KernelContextOperandType

/-- The object and every object nested in it is of one of the seven
subclasses. -/
def TypeObject.isOfSevenVariants : TypeObject → Bool
  | .AsyncValueType value => value.isOfSevenVariants
  | .OtherType _ => false
  | _ => true

/-- The branches of the `isa`/`dyn_cast` chain of `operator<<`. -/
inductive PrintBranch where
  | AsyncToken
  | AsyncValue
  | RankedTensor
  | UnrankedTensor
  | Memref
  | UnrankedMemref
  | KernelContext
  | Fallback
deriving DecidableEq, Repr

/-- The function `operator<<` on an object of the hierarchy: the text written
and the branches taken, outermost call first. The last branch is the final
`else` of the source (with assertions compiled out it writes
`<unknown type>`). -/
def printTypeObject (dtypeText : DType → String) :
    TypeObject → String × List PrintBranch
  | .AsyncTokenType => ("!async.token", [.AsyncToken])
  | .AsyncValueType value =>
      let inner := printTypeObject dtypeText value
      ("!async.value<" ++ inner.1 ++ ">", .AsyncValue :: inner.2)
  | .RankedTensorType sizes el =>
      ("tensor<" ++ print_arr sizes ++ "x" ++ dtypeText el ++ ">", [.RankedTensor])
  | .UnrankedTensorType el =>
      ("tensor<" ++ "*x" ++ dtypeText el ++ ">", [.UnrankedTensor])
  | .MemrefType sizes el =>
      ("memref<" ++ print_arr sizes ++ "x" ++ dtypeText el ++ ">", [.Memref])
  | .UnrankedMemrefType el =>
      ("memref<" ++ "*x" ++ dtypeText el ++ ">", [.UnrankedMemref])
  | .KernelContextOperandType => ("!rt.kernel_context", [.KernelContext])
  | .OtherType _ => ("<unknown type>", [.Fallback])

/-! ## Decimal text, for the injectivity of printing -/

/-- The number that a list of decimal digits denotes. -/
def digitsValue (l : List Char) : Nat :=
  l.foldl (fun a c => 10 * a + (c.toNat - 48)) 0

/-- The characters of a printed size: a decimal digit or the sign. -/
def isSizeChar (c : Char) : Bool :=
  c.isDigit || c == '-'

/-- The characters written after the first size of a ranked shape: `x` and the
text of each further size, then `x` and the rest `e` (the element and what
follows it). -/
def shapeTail : List Int → List Char → List Char
  | [], e => 'x' :: e
  | d :: ds, e => 'x' :: ((toString d).data ++ shapeTail ds e)

/-- The characters written for a shape and what follows it: for an empty
shape `x` and the rest, otherwise the first size and `shapeTail`. -/
def shapeBody : List Int → List Char → List Char
  | [], e => 'x' :: e
  | d :: ds, e => (toString d).data ++ shapeTail ds e

/-! ## The compilation and execution engine, modelled from the specification

`JitExecutable` and `Executable` are not among the embedded files (only the
end-to-end test that calls them is); the definitions of this section follow
the specification's description of them. The frontend parser, the lowering
pipeline and the native code it produces are external collaborators and
appear as fields of a program. -/

/-- Modelled from the spec: the per-argument specialization constraint attached
to the entry signature, `none | shape | value`; `JitExecutable` is not among
the embedded files. -/
inductive SpecializationConstraint where
  | None
  | Shape
  | Value
deriving DecidableEq, Repr

/-- Modelled from the spec: the option `specialization` of
`CompilationOptions`, `Disabled` or `Enabled`; its declaration is not among the
embedded files. -/
inductive Specialization where
  | Disabled
  | Enabled
deriving DecidableEq, Repr

/-- A value stored in a buffer: a 32-bit integer, or a 32-bit float whose
values are of the type `F`, left open because floats are moved and never
computed with. -/
inductive Scalar (F : Type) where
  | I32 (v : Int)
  | F32 (v : F)
deriving DecidableEq, Repr

/-- Modelled from the spec: the runtime argument descriptor `MemrefDesc`
(dtype, data pointer, offset, sizes, strides); its declaration is not among
the embedded files. The data pointer is the buffer it points to, as the list
of its elements; offset and strides count elements. -/
structure MemrefDesc (F : Type) where
  dtype : DType
  data : List (Scalar F)
  offset : Nat
  sizes : List Nat
  strides : List Nat
deriving DecidableEq, Repr

/-- The element of a 2-D memref at row `i`, column `j`. -/
def MemrefDesc.get2 {F : Type} [Inhabited F] (m : MemrefDesc F) (i j : Nat) :
    Scalar F :=
  m.data.getD (m.offset + i * m.strides.getD 0 0 + j * m.strides.getD 1 0)
    (.F32 default)

/-- Modelled from the spec: what specialization embeds in the program for one
argument: nothing, its concrete shape, or its concrete shape and value. The
list of these over the arguments is the specialization fingerprint. -/
inductive ArgSpecialization (F : Type) where
  | Unspecialized
  | Shape (sizes : List Nat)
  | Value (sizes : List Nat) (data : List (Scalar F))
deriving DecidableEq, Repr

/-- Modelled from the spec: native code, from the marshalled arguments to the
raw results or a runtime failure signal. -/
abbrev NativeFunction (F : Type) :=
  List (MemrefDesc F) → Except String (List (MemrefDesc F))

/-- Modelled from the spec: a source program as the engine sees it: whether the
frontend parser accepts it, the entry function's signature and constraints,
and the caller's lowering pipeline applied to it, an opaque deterministic
function of the specialization embedded in the program that produces native
code or fails with diagnostics. -/
structure Program (F : Type) where
  parses : Bool
  signature : MFunctionType
  constraints : List SpecializationConstraint
  lower : List (ArgSpecialization F) → Except String (NativeFunction F)

/-- Modelled from the spec: `Executable`, one compiled artifact bound to a
signature. -/
structure Executable (F : Type) where
  signature : FunctionType
  native : NativeFunction F

/-- Modelled from the spec: the state of an asynchronous executable handle,
`Compiling`, then `Ready` or `Error`. -/
inductive ExecutableHandle (F : Type) where
  | Compiling
  | Ready (executable : Executable F)
  | Error (message : String)

/-- Modelled from the spec: `JitExecutable`, one default slot and a mapping
from specialization fingerprint to an executable handle. -/
structure JitExecutable (F : Type) where
  program : Program F
  specialization : Specialization
  signature : FunctionType
  default_executable : ExecutableHandle F
  cache : List (List (ArgSpecialization F) × ExecutableHandle F)

/-- Modelled from the spec: one run of the lowering pipeline on the program
with a specialization embedded; the outcome is the terminal state of the
slot. -/
def compile {F : Type} (program : Program F) (signature : FunctionType)
    (spec : List (ArgSpecialization F)) : ExecutableHandle F :=
  match program.lower spec with
  | .ok native => .Ready { signature := signature, native := native }
  | .error diagnostics => .Error diagnostics

/-- Modelled from the spec: `JitExecutable::Instantiate` validates that the
source parses, converts the entry signature through the type system (the
embedded `FunctionType::Convert`) and, whatever the options, compiles the
default executable, unspecialized; a failure of that compilation is the
error state of the default slot, not an error of `Instantiate`. -/
def JitExecutable.Instantiate {F : Type} (irText : MType → String)
    (program : Program F) (specialization : Specialization) :
    Except String (JitExecutable F) :=
  if !program.parses then
    .error "source parse error"
  else
    match FunctionType.Convert irText program.signature with
    | .error err => .error err
    | .ok signature =>
        .ok { program := program
              specialization := specialization
              signature := signature
              default_executable :=
                compile program signature
                  (program.constraints.map (fun _ => .Unspecialized))
              cache := [] }

/-- Modelled from the spec: `DefaultExecutable` returns the handle of the
default slot unconditionally. -/
def JitExecutable.DefaultExecutable {F : Type} (jit : JitExecutable F) :
    ExecutableHandle F :=
  jit.default_executable

/-- Modelled from the spec: the contribution of one argument to the
fingerprint, by its constraint. -/
def specializeArg {F : Type} :
    SpecializationConstraint → MemrefDesc F → ArgSpecialization F
  | .None, _ => .Unspecialized
  | .Shape, arg => .Shape arg.sizes
  | .Value, arg => .Value arg.sizes arg.data

/-- Modelled from the spec: the specialization fingerprint of a call. -/
def fingerprint {F : Type} (constraints : List SpecializationConstraint)
    (args : List (MemrefDesc F)) : List (ArgSpecialization F) :=
  List.zipWith specializeArg constraints args

/-- Modelled from the spec: the rank of an argument is consistent with the
declared operand type (a ranked type fixes the rank, an unranked one does
not). -/
def rankConsistent {F : Type} : RuntimeType → MemrefDesc F → Bool
  | .RankedTensorType sizes _, arg => arg.sizes.length == sizes.length
  | .MemrefType sizes _, arg => arg.sizes.length == sizes.length
  | .UnrankedTensorType _, _ => true
  | .UnrankedMemrefType _, _ => true
  | _, _ => false

/-- The handle stored in the cache for a fingerprint. -/
def lookupHandle {F : Type} [DecidableEq F] (key : List (ArgSpecialization F)) :
    List (List (ArgSpecialization F) × ExecutableHandle F) →
      Option (ExecutableHandle F)
  | [] => none
  | (k, h) :: rest => if k = key then some h else lookupHandle key rest

/-- Modelled from the spec: `GetExecutable` validates the argument count and
the ranks synchronously, computes the fingerprint, returns the cache unchanged
on a hit, and on a miss inserts a pending handle for the fingerprint. The
handle is named by its fingerprint. -/
def JitExecutable.GetExecutable {F : Type} [DecidableEq F] (jit : JitExecutable F)
    (args : List (MemrefDesc F)) :
    Except String (List (ArgSpecialization F) × JitExecutable F) :=
  if args.length != jit.signature.operands.length then
    .error "argument mismatch: number of arguments"
  else if !(List.zipWith rankConsistent jit.signature.operands args).all id then
    .error "argument mismatch: rank"
  else
    let key := fingerprint jit.program.constraints args
    match lookupHandle key jit.cache with
    | some _ => .ok (key, jit)
    | none => .ok (key, { jit with cache := (key, .Compiling) :: jit.cache })

/-- Modelled from the spec: the asynchronous compilation started by a miss
runs to its end: the pending handle of the fingerprint takes the outcome of
the pipeline on the program specialized for it; other handles stay. -/
def JitExecutable.completeCompilation {F : Type} [DecidableEq F]
    (jit : JitExecutable F) (key : List (ArgSpecialization F)) : JitExecutable F :=
  { jit with
    cache := jit.cache.map (fun entry =>
      match entry with
      | (k, .Compiling) =>
          if k = key then (k, compile jit.program jit.signature key) else entry
      | _ => entry) }

/-- Modelled from the spec: an argument matches a declared operand type in
rank and dtype, a dynamic dimension of the signature (a negative stored size)
accepting any size. -/
def argumentMatches {F : Type} : RuntimeType → MemrefDesc F → Bool
  | .RankedTensorType sizes el, arg =>
      arg.dtype == el && arg.sizes.length == sizes.length &&
        (List.zipWith (fun s a => decide (s < 0 ∨ s = (a : Int))) sizes arg.sizes).all id
  | .MemrefType sizes el, arg =>
      arg.dtype == el && arg.sizes.length == sizes.length &&
        (List.zipWith (fun s a => decide (s < 0 ∨ s = (a : Int))) sizes arg.sizes).all id
  | .UnrankedTensorType el, arg => arg.dtype == el
  | .UnrankedMemrefType el, arg => arg.dtype == el
  | _, _ => false

/-- Modelled from the spec: a dense host tensor, the host value that the
conversion of the test materialises. -/
structure DenseHostTensor (F : Type) where
  dtype : DType
  shape : List Nat
  data : List (Scalar F)
deriving DecidableEq, Repr

/-- The number of elements of a dense host tensor. -/
def DenseHostTensor.NumElements {F : Type} (t : DenseHostTensor F) : Nat :=
  t.shape.foldl (fun a b => a * b) 1

/-- The element of a 2-D dense host tensor at row `i`, column `j` (row-major). -/
def DenseHostTensor.get2 {F : Type} [Inhabited F] (t : DenseHostTensor F)
    (i j : Nat) : Scalar F :=
  t.data.getD (i * t.shape.getD 1 0 + j) (.F32 default)

/-- Modelled from the spec: a return value converter, the ordered list of
type-directed conversion functions; a function gives `none` when its
predicate does not match the result. -/
abbrev ReturnValueConverter (F : Type) :=
  List (RuntimeType → MemrefDesc F → Option (DenseHostTensor F))

/-- Modelled from the spec: the conversion of one result: the functions are
tried in registration order, the first match materialises the host value, and
with no match the slot resolves to a conversion error. -/
def convertResult {F : Type} :
    ReturnValueConverter F → RuntimeType → MemrefDesc F →
      Except String (DenseHostTensor F)
  | [], _, _ => .error "conversion error: no matching result converter"
  | f :: rest, type, value =>
      match f type value with
      | some host => .ok host
      | none => convertResult rest type value

/-- Modelled from the spec: `ReturnMemrefAsDenseHostTensor`, the conversion
registered by the test: a memref-shaped result (a tensor at the IR level) with
a dense row-major buffer becomes a dense host tensor of its dtype, sizes and
elements. -/
def ReturnMemrefAsDenseHostTensor {F : Type} (type : RuntimeType)
    (value : MemrefDesc F) : Option (DenseHostTensor F) :=
  match type with
  | .RankedTensorType _ _ | .MemrefType _ _ | .UnrankedTensorType _
  | .UnrankedMemrefType _ =>
      some { dtype := value.dtype, shape := value.sizes, data := value.data }
  | _ => none

/-- Modelled from the spec: `Executable::Execute` validates the argument count
and every argument against the bound signature, invokes the native code, turns
a runtime failure into the error of the call, and on success converts each
declared result through the return value converter. -/
def Executable.Execute {F : Type} (executable : Executable F)
    (args : List (MemrefDesc F)) (converter : ReturnValueConverter F) :
    Except String (List (Except String (DenseHostTensor F))) :=
  if args.length != executable.signature.operands.length then
    .error "argument mismatch: number of arguments"
  else if !(List.zipWith argumentMatches executable.signature.operands args).all id then
    .error "argument mismatch: rank or dtype"
  else
    match executable.native args with
    | .error failure => .error failure
    | .ok results =>
        .ok (List.zipWith (convertResult converter) executable.signature.results results)

/-! ### The program of the end-to-end test -/

/-- Modelled from the spec: the native code of `compute` once the permutation
`[1, 0]` is a constant of the program, transpose by permutation: the result
is a dense row-major memref with the two sizes exchanged whose element
`(i, j)` is the element `(j, i)` of the first argument. -/
def transposeNative {F : Type} [Inhabited F] : NativeFunction F
  | [input, _] =>
      let rows := input.sizes.getD 0 0
      let cols := input.sizes.getD 1 0
      .ok [{ dtype := input.dtype
             data := (List.range (cols * rows)).map
               (fun k => input.get2 (k % rows) (k / rows))
             offset := 0
             sizes := [cols, rows]
             strides := [rows, 1] }]
  | _ => .error "wrong number of arguments"

/-- Modelled from the spec: the native code of `compute` for the constant
permutation `[0, 1]`: the result is the first argument as a dense row-major
memref. -/
def identityNative {F : Type} [Inhabited F] : NativeFunction F
  | [input, _] =>
      let rows := input.sizes.getD 0 0
      let cols := input.sizes.getD 1 0
      .ok [{ dtype := input.dtype
             data := (List.range (rows * cols)).map
               (fun k => input.get2 (k / cols) (k % cols))
             offset := 0
             sizes := [rows, cols]
             strides := [cols, 1] }]
  | _ => .error "wrong number of arguments"

/-- Modelled from the spec: the program `compute` of the end-to-end test, entry
signature `(tensor<?x?xf32>, tensor<2xi32> constraint=value) -> tensor<?x?xf32>`,
a transpose by the permutation argument. Its pipeline lowers the transpose
only when the permutation is a constant of the program. -/
def computeProgram (F : Type) [Inhabited F] : Program F where
  parses := true
  signature :=
    { inputs := [.RankedTensor [-1, -1] .F32, .RankedTensor [2] (.Integer 32 .Signless)]
      results := [.RankedTensor [-1, -1] .F32] }
  constraints := [.None, .Value]
  lower := fun spec =>
    match spec with
    | [_, .Value _ [.I32 1, .I32 0]] => .ok transposeNative
    | [_, .Value _ [.I32 0, .I32 1]] => .ok identityNative
    | [_, .Value _ _] => .error "tosa.transpose: not a permutation"
    | _ => .error "tosa.transpose: the permutation must be a constant"
/-- The permutation argument of the end-to-end test: the `i32` vector
`{1, 0}`. -/
def testPermutation (F : Type) : MemrefDesc F :=
  { dtype := .I32, data := [.I32 1, .I32 0], offset := 0, sizes := [2], strides := [1] }

/-- The input argument of the end-to-end test: a dense row-major 2x2 `f32`
memref holding four values. -/
def testInput {F : Type} (a b c d : F) : MemrefDesc F :=
  { dtype := .F32, data := [.F32 a, .F32 b, .F32 c, .F32 d], offset := 0,
    sizes := [2, 2], strides := [2, 1] }

/-- The runtime signature of `compute`. -/
def computeSignature : FunctionType :=
  { operands := [.RankedTensorType [-1, -1] .F32, .RankedTensorType [2] .I32]
    results := [.RankedTensorType [-1, -1] .F32] }

end jitrt

/-! # Properties -/

namespace jitrt

/-! ## The loops of `FunctionType::Convert` -/

theorem convertLoop_ok_iff (irText : MType → String) (kind : String) :
    ∀ (ts : List MType) (i : Nat) (acc out : List RuntimeType),
      convertLoop irText kind ts i acc = .ok out ↔
        ∃ rs, out = acc ++ rs ∧ ts.map (ConvertType irText) = rs.map Except.ok := by
  intro ts
  induction ts with
  | nil =>
      intro i acc out
      simp only [convertLoop, List.map_nil]
      constructor
      · intro h
        refine ⟨[], ?_, rfl⟩
        simpa using (Except.ok.inj h).symm
      · rintro ⟨rs, h1, h2⟩
        cases rs with
        | nil => simp [h1]
        | cons r rs => simp at h2
  | cons t ts ih =>
      intro i acc out
      simp only [convertLoop, List.map_cons]
      cases hc : ConvertType irText t with
      | error err =>
          simp only
          constructor
          · intro h; cases h
          · rintro ⟨rs, _, h2⟩
            cases rs with
            | nil => simp at h2
            | cons r rs => simp at h2
      | ok c =>
          simp only [ih]
          constructor
          · rintro ⟨rs, h1, h2⟩
            exact ⟨c :: rs, by simp [h1], by simp [h2]⟩
          · rintro ⟨rs, h1, h2⟩
            cases rs with
            | nil => simp at h2
            | cons r rs =>
                simp only [List.map_cons, List.cons.injEq, Except.ok.injEq] at h2
                obtain ⟨rfl, h2⟩ := h2
                exact ⟨rs, by simp [h1], h2⟩

theorem convertLoop_error_iff (irText : MType → String) (kind : String) :
    ∀ (ts : List MType) (i : Nat) (acc : List RuntimeType) (e : String),
      convertLoop irText kind ts i acc = .error e ↔
        ∃ pre t post err, ts = pre ++ t :: post ∧
          (∀ u ∈ pre, ∃ r, ConvertType irText u = .ok r) ∧
          ConvertType irText t = .error err ∧
          e = conversionError irText kind (i + pre.length) t err := by
  intro ts
  induction ts with
  | nil =>
      intro i acc e
      simp [convertLoop]
  | cons t ts ih =>
      intro i acc e
      simp only [convertLoop]
      cases hc : ConvertType irText t with
      | error err =>
          simp only
          constructor
          · intro h
            refine ⟨[], t, ts, err, rfl, by simp, hc, ?_⟩
            simpa using (Except.error.inj h).symm
          · rintro ⟨pre, t', post, err', h1, h2, h3, h4⟩
            cases pre with
            | nil =>
                simp only [List.nil_append, List.cons.injEq] at h1
                obtain ⟨rfl, rfl⟩ := h1
                rw [hc] at h3
                cases h3
                simp [h4]
            | cons p pre =>
                simp only [List.cons_append, List.cons.injEq] at h1
                obtain ⟨rfl, rfl⟩ := h1
                obtain ⟨r, hr⟩ := h2 t (by simp)
                rw [hc] at hr
                cases hr
      | ok c =>
          simp only [ih]
          constructor
          · rintro ⟨pre, t', post, err', h1, h2, h3, h4⟩
            refine ⟨t :: pre, t', post, err', by simp [h1], ?_, h3, ?_⟩
            · intro u hu
              rcases List.mem_cons.mp hu with rfl | hu
              · exact ⟨c, hc⟩
              · exact h2 u hu
            · simp only [List.length_cons, h4]
              congr 1
              omega
          · rintro ⟨pre, t', post, err', h1, h2, h3, h4⟩
            cases pre with
            | nil =>
                simp only [List.nil_append, List.cons.injEq] at h1
                obtain ⟨rfl, rfl⟩ := h1
                rw [hc] at h3
                cases h3
            | cons p pre =>
                simp only [List.cons_append, List.cons.injEq] at h1
                obtain ⟨rfl, rfl⟩ := h1
                refine ⟨pre, t', post, err', rfl, ?_, h3, ?_⟩
                · intro u hu
                  exact h2 u (List.mem_cons_of_mem _ hu)
                · simp only [List.length_cons] at h4
                  rw [h4]
                  congr 1
                  omega

theorem map_ok_getElem? (irText : MType → String) :
    ∀ (ts : List MType) (rs : List RuntimeType),
      ts.map (ConvertType irText) = rs.map Except.ok →
      rs.length = ts.length ∧
        ∀ (i : Nat) (t : MType), ts[i]? = some t →
          ∃ r, rs[i]? = some r ∧ ConvertType irText t = .ok r := by
  intro ts rs h
  have hlen : rs.length = ts.length := by
    have := congrArg List.length h
    simpa using this.symm
  refine ⟨hlen, ?_⟩
  intro i t hi
  have h1 : (ts.map (ConvertType irText))[i]? = some (ConvertType irText t) := by
    simp [List.getElem?_map, hi]
  rw [h, List.getElem?_map] at h1
  cases hr : rs[i]? with
  | none => simp [hr] at h1
  | some r =>
      simp only [hr, Option.map_some', Option.some.injEq] at h1
      exact ⟨r, rfl, h1.symm⟩

theorem convertLoop_error_at (irText : MType → String) (kind : String) :
    ∀ (ts : List MType) (i0 : Nat) (acc : List RuntimeType) (i : Nat) (t : MType)
      (err : String),
      ts[i]? = some t → ConvertType irText t = .error err →
      (∀ (j : Nat) (u : MType), j < i → ts[j]? = some u →
        ∃ r, ConvertType irText u = .ok r) →
      convertLoop irText kind ts i0 acc =
        .error (conversionError irText kind (i0 + i) t err) := by
  intro ts
  induction ts with
  | nil => intro i0 acc i t err h; simp at h
  | cons a ts ih =>
      intro i0 acc i t err hi herr hpre
      cases i with
      | zero =>
          simp only [List.getElem?_cons_zero, Option.some.injEq] at hi
          subst hi
          simp [convertLoop, herr]
      | succ i =>
          obtain ⟨c, hc⟩ := hpre 0 a (Nat.succ_pos i) (by simp)
          simp only [List.getElem?_cons_succ] at hi
          have hrec := ih (i0 + 1) (acc ++ [c]) i t err hi herr (by
            intro j u hj hu
            exact hpre (j + 1) u (Nat.succ_lt_succ hj) (by simpa using hu))
          simp only [convertLoop, hc, hrec]
          congr 2
          omega

theorem convertLoop_ok_of_all (irText : MType → String) (kind : String)
    (ts : List MType) (h : ∀ t ∈ ts, ∃ r, ConvertType irText t = .ok r) :
    ∃ rs, convertLoop irText kind ts 0 [] = .ok rs ∧
      ts.map (ConvertType irText) = rs.map Except.ok := by
  cases hl : convertLoop irText kind ts 0 [] with
  | ok rs =>
      obtain ⟨rs', h1, h2⟩ := (convertLoop_ok_iff irText kind ts 0 [] rs).mp hl
      simp only [List.nil_append] at h1
      subst h1
      exact ⟨rs, rfl, h2⟩
  | error e =>
      obtain ⟨pre, t, post, err, h1, _, h3, _⟩ :=
        (convertLoop_error_iff irText kind ts 0 [] e).mp hl
      obtain ⟨r, hr⟩ := h t (by simp [h1])
      rw [h3] at hr
      cases hr

end jitrt
namespace jitrt

/-- C1. `FunctionType::Convert`, success case: when `ConvertType` accepts every
input and every result of an IR function type, the conversion succeeds, the
operand sequence has the length of the inputs and its i-th entry is
`ConvertType` of input i, the result sequence has the length of the IR results
and its j-th entry is `ConvertType` of result j; a function type with no
inputs and no results converts to two empty sequences. -/
theorem FunctionType.Convert_success (irText : MType → String) :
    (∀ type : MFunctionType,
      (∀ t ∈ type.inputs, ∃ r, ConvertType irText t = .ok r) →
      (∀ t ∈ type.results, ∃ r, ConvertType irText t = .ok r) →
      ∃ f : FunctionType, FunctionType.Convert irText type = .ok f ∧
        f.operands.length = type.inputs.length ∧
        (∀ (i : Nat) (t : MType), type.inputs[i]? = some t →
          ∃ r, f.operands[i]? = some r ∧ ConvertType irText t = .ok r) ∧
        f.results.length = type.results.length ∧
        (∀ (j : Nat) (t : MType), type.results[j]? = some t →
          ∃ r, f.results[j]? = some r ∧ ConvertType irText t = .ok r)) ∧
    FunctionType.Convert irText { inputs := [], results := [] } =
      .ok { operands := [], results := [] } := by
  refine ⟨?_, rfl⟩
  intro type hin hres
  obtain ⟨ops, hops, hmapo⟩ := convertLoop_ok_of_all irText "input" type.inputs hin
  obtain ⟨res, hress, hmapr⟩ := convertLoop_ok_of_all irText "result" type.results hres
  obtain ⟨hl1, hi1⟩ := map_ok_getElem? irText type.inputs ops hmapo
  obtain ⟨hl2, hi2⟩ := map_ok_getElem? irText type.results res hmapr
  refine ⟨{ operands := ops, results := res }, ?_, hl1, hi1, hl2, hi2⟩
  simp only [FunctionType.Convert, hops, hress]

/-- Witness of C1: the signature of the end-to-end test's `compute` function,
`(tensor<?x?xf32>, tensor<2xi32>) -> tensor<?x?xf32>`. -/
theorem FunctionType.Convert_success_witness :
    ∃ f : FunctionType,
      FunctionType.Convert irTypeText
        { inputs := [.RankedTensor [-1, -1] .F32,
                     .RankedTensor [2] (.Integer 32 .Signless)],
          results := [.RankedTensor [-1, -1] .F32] } = .ok f ∧
      f.operands.length = 2 ∧
      (∀ (i : Nat) (t : MType),
        [MType.RankedTensor [-1, -1] .F32,
         MType.RankedTensor [2] (.Integer 32 .Signless)][i]? = some t →
          ∃ r, f.operands[i]? = some r ∧ ConvertType irTypeText t = .ok r) ∧
      f.results.length = 1 ∧
      (∀ (j : Nat) (t : MType), [MType.RankedTensor [-1, -1] .F32][j]? = some t →
          ∃ r, f.results[j]? = some r ∧ ConvertType irTypeText t = .ok r) :=
  (FunctionType.Convert_success irTypeText).1
    { inputs := [.RankedTensor [-1, -1] .F32,
                 .RankedTensor [2] (.Integer 32 .Signless)],
      results := [.RankedTensor [-1, -1] .F32] }
    (by
      intro t ht
      simp only [List.mem_cons, List.mem_singleton, List.not_mem_nil, or_false] at ht
      rcases ht with rfl | rfl
      · exact ⟨.RankedTensorType [-1, -1] .F32, rfl⟩
      · exact ⟨.RankedTensorType [2] .I32, rfl⟩)
    (by
      intro t ht
      simp only [List.mem_singleton] at ht
      subst ht
      exact ⟨.RankedTensorType [-1, -1] .F32, rfl⟩)

end jitrt
namespace jitrt

theorem conversionError_input (irText : MType → String) (i : Nat) (t : MType)
    (err : String) :
    conversionError irText "input" i t err =
      "can't convert input #" ++ toString i ++ " type " ++ irText t ++
        " to the runtime type: " ++ err := rfl

theorem conversionError_result (irText : MType → String) (i : Nat) (t : MType)
    (err : String) :
    conversionError irText "result" i t err =
      "can't convert result #" ++ toString i ++ " type " ++ irText t ++
        " to the runtime type: " ++ err := rfl

/-- C2. `FunctionType::Convert`, failure case: the conversion returns an error
exactly when `ConvertType` rejects some input or some result; when an input is
rejected, the error is the one of the rejected input with the smallest index
(whatever the results are); when every input is accepted, it is the one of the
rejected result with the smallest index. The message names the kind (`input`
for an operand, `result`), the zero-based index, the offending IR type, and
ends with the error of `ConvertType`; being an error, it carries no
`FunctionType`. -/
theorem FunctionType.Convert_failure (irText : MType → String)
    (type : MFunctionType) :
    ((∃ e, FunctionType.Convert irText type = .error e) ↔
      ∃ t ∈ type.inputs ++ type.results, ∃ err, ConvertType irText t = .error err) ∧
    (∀ (i : Nat) (t : MType) (err : String),
      type.inputs[i]? = some t → ConvertType irText t = .error err →
      (∀ (j : Nat) (u : MType), j < i → type.inputs[j]? = some u →
        ∃ r, ConvertType irText u = .ok r) →
      FunctionType.Convert irText type =
        .error ("can't convert input #" ++ toString i ++ " type " ++ irText t ++
          " to the runtime type: " ++ err)) ∧
    (∀ (i : Nat) (t : MType) (err : String),
      (∀ u ∈ type.inputs, ∃ r, ConvertType irText u = .ok r) →
      type.results[i]? = some t → ConvertType irText t = .error err →
      (∀ (j : Nat) (u : MType), j < i → type.results[j]? = some u →
        ∃ r, ConvertType irText u = .ok r) →
      FunctionType.Convert irText type =
        .error ("can't convert result #" ++ toString i ++ " type " ++ irText t ++
          " to the runtime type: " ++ err)) := by
  refine ⟨⟨?_, ?_⟩, ?_, ?_⟩
  · rintro ⟨e, he⟩
    simp only [FunctionType.Convert] at he
    cases h1 : convertLoop irText "input" type.inputs 0 [] with
    | error e1 =>
        obtain ⟨pre, t, post, err, hsplit, _, herr, _⟩ :=
          (convertLoop_error_iff irText "input" type.inputs 0 [] e1).mp h1
        exact ⟨t, by simp [hsplit], err, herr⟩
    | ok ops =>
        simp only [h1] at he
        cases h2 : convertLoop irText "result" type.results 0 [] with
        | error e2 =>
            obtain ⟨pre, t, post, err, hsplit, _, herr, _⟩ :=
              (convertLoop_error_iff irText "result" type.results 0 [] e2).mp h2
            exact ⟨t, by simp [hsplit], err, herr⟩
        | ok res =>
            simp only [h2] at he
            cases he
  · rintro ⟨t, ht, err, herr⟩
    cases hc : FunctionType.Convert irText type with
    | error e => exact ⟨e, rfl⟩
    | ok f =>
        exfalso
        simp only [FunctionType.Convert] at hc
        cases h1 : convertLoop irText "input" type.inputs 0 [] with
        | error e1 => simp only [h1] at hc; cases hc
        | ok ops =>
            simp only [h1] at hc
            cases h2 : convertLoop irText "result" type.results 0 [] with
            | error e2 => simp only [h2] at hc; cases hc
            | ok res =>
                obtain ⟨rs1, _, hm1⟩ :=
                  (convertLoop_ok_iff irText "input" type.inputs 0 [] ops).mp h1
                obtain ⟨rs2, _, hm2⟩ :=
                  (convertLoop_ok_iff irText "result" type.results 0 [] res).mp h2
                have key : ∀ (ts : List MType) (rs : List RuntimeType),
                    ts.map (ConvertType irText) = rs.map Except.ok → t ∈ ts → False := by
                  intro ts rs hm hmem
                  have : ConvertType irText t ∈ ts.map (ConvertType irText) :=
                    List.mem_map_of_mem _ hmem
                  rw [hm, herr] at this
                  simp at this
                rcases List.mem_append.mp ht with hmem | hmem
                · exact key _ _ hm1 hmem
                · exact key _ _ hm2 hmem
  · intro i t err hi herr hpre
    have h := convertLoop_error_at irText "input" type.inputs 0 [] i t err hi herr hpre
    simp only [FunctionType.Convert, h, Nat.zero_add, conversionError_input]
  · intro i t err hin hi herr hpre
    obtain ⟨ops, hops, _⟩ := convertLoop_ok_of_all irText "input" type.inputs hin
    have h := convertLoop_error_at irText "result" type.results 0 [] i t err hi herr hpre
    simp only [FunctionType.Convert, hops, h, Nat.zero_add, conversionError_result]

/-- Witness of C2: input 1 (`f32`, not a boundary type) is the first rejected
type although input 2 and the result are rejected as well. -/
theorem FunctionType.Convert_failure_witness :
    FunctionType.Convert irTypeText
        { inputs := [.AsyncToken, .F32, .Index], results := [.Index] } =
      .error ("can't convert input #" ++ toString 1 ++ " type " ++ irTypeText .F32 ++
          " to the runtime type: " ++ "unsupported type: f32") :=
  (FunctionType.Convert_failure irTypeText
      { inputs := [.AsyncToken, .F32, .Index], results := [.Index] }).2.1
    1 .F32 "unsupported type: f32" rfl rfl
    (by
      intro j u hj hu
      have hj0 : j = 0 := by omega
      subst hj0
      exact ⟨.AsyncTokenType, by
        simp only [List.getElem?_cons_zero, Option.some.injEq] at hu
        subst hu
        rfl⟩)

end jitrt
namespace jitrt

/-! ## `ConvertType` -/

/-- C3. `ConvertType` maps each supported IR type kind to the matching runtime
variant and keeps its contents: a token gives `AsyncTokenType`, a kernel
context gives `KernelContextOperandType`; a ranked tensor (ranked memref) of
shape `s` whose element converts to `d` gives `RankedTensorType s d`
(`MemrefType s d`) with the very same list of sizes; an unranked tensor
(memref) gives `UnrankedTensorType d` (`UnrankedMemrefType d`); an async value
wrapping a ranked memref `m` gives `AsyncValueType` of `ConvertType m`. -/
theorem ConvertType_supported (irText : MType → String) :
    ConvertType irText .AsyncToken = .ok .AsyncTokenType ∧
    ConvertType irText .KernelContext = .ok .KernelContextOperandType ∧
    (∀ (s : List Int) (e : MType) (d : DType),
      ConvertElementType irText e = .ok d →
        ConvertType irText (.RankedTensor s e) = .ok (.RankedTensorType s d) ∧
        ConvertType irText (.MemRef s e) = .ok (.MemrefType s d) ∧
        ConvertType irText (.UnrankedTensor e) = .ok (.UnrankedTensorType d) ∧
        ConvertType irText (.UnrankedMemRef e) = .ok (.UnrankedMemrefType d)) ∧
    (∀ (m : MType) (r : RuntimeType),
      m.isaMemRef = true → ConvertType irText m = .ok r →
        ConvertType irText (.AsyncValue m) = .ok (.AsyncValueType r)) := by
  refine ⟨rfl, rfl, ?_, ?_⟩
  · intro s e d h
    simp [ConvertType, h]
  · intro m r hm h
    simp [ConvertType, hm, h]

/-- Witness of C3: `tensor<2x?xf32>` and its siblings, and
`!async.value<memref<2x?xf32>>`. -/
theorem ConvertType_supported_witness :
    (ConvertType irTypeText (.RankedTensor [2, -1] .F32) =
        .ok (.RankedTensorType [2, -1] .F32) ∧
      ConvertType irTypeText (.MemRef [2, -1] .F32) = .ok (.MemrefType [2, -1] .F32) ∧
      ConvertType irTypeText (.UnrankedTensor .F32) = .ok (.UnrankedTensorType .F32) ∧
      ConvertType irTypeText (.UnrankedMemRef .F32) =
        .ok (.UnrankedMemrefType .F32)) ∧
    ConvertType irTypeText (.AsyncValue (.MemRef [2, -1] .F32)) =
      .ok (.AsyncValueType (.MemrefType [2, -1] .F32)) :=
  ⟨(ConvertType_supported irTypeText).2.2.1 [2, -1] .F32 .F32 rfl,
   (ConvertType_supported irTypeText).2.2.2 (.MemRef [2, -1] .F32)
      (.MemrefType [2, -1] .F32) rfl rfl⟩

theorem ConvertType_isMemref_of_isaMemRef (irText : MType → String) (m : MType)
    (r : RuntimeType) (hm : m.isaMemRef = true) (h : ConvertType irText m = .ok r) :
    r.isMemref = true ∧ r.asyncValuesHoldMemref = true := by
  cases m <;> simp [MType.isaMemRef] at hm
  rename_i s e
  simp only [ConvertType] at h
  cases he : ConvertElementType irText e with
  | error err => simp [he] at h
  | ok d =>
      simp only [he, Except.ok.injEq] at h
      subst h
      simp [RuntimeType.isMemref, RuntimeType.asyncValuesHoldMemref]

theorem ConvertType_asyncValuesHoldMemref (irText : MType → String) (t : MType)
    (r : RuntimeType) (h : ConvertType irText t = .ok r) :
    r.asyncValuesHoldMemref = true := by
  cases t with
  | AsyncValue v =>
      simp only [ConvertType] at h
      cases hv : v.isaMemRef with
      | false => simp [hv] at h
      | true =>
          cases hc : ConvertType irText v with
          | error err => simp [hv, hc] at h
          | ok r1 =>
              simp only [hv, hc, Bool.not_true, Bool.false_eq_true, if_false,
                Except.ok.injEq] at h
              subst h
              obtain ⟨h1, h2⟩ := ConvertType_isMemref_of_isaMemRef irText v r1 hv hc
              simp [RuntimeType.asyncValuesHoldMemref, h1, h2]
  | RankedTensor s e =>
      simp only [ConvertType] at h
      cases he : ConvertElementType irText e <;> simp [he] at h
      subst h; rfl
  | UnrankedTensor e =>
      simp only [ConvertType] at h
      cases he : ConvertElementType irText e <;> simp [he] at h
      subst h; rfl
  | MemRef s e =>
      simp only [ConvertType] at h
      cases he : ConvertElementType irText e <;> simp [he] at h
      subst h; rfl
  | UnrankedMemRef e =>
      simp only [ConvertType] at h
      cases he : ConvertElementType irText e <;> simp [he] at h
      subst h; rfl
  | AsyncToken => simp only [ConvertType, Except.ok.injEq] at h; subst h; rfl
  | KernelContext => simp only [ConvertType, Except.ok.injEq] at h; subst h; rfl
  | F16 => simp [ConvertType] at h
  | BF16 => simp [ConvertType] at h
  | F32 => simp [ConvertType] at h
  | F64 => simp [ConvertType] at h
  | Index => simp [ConvertType] at h
  | Integer w sg => simp [ConvertType] at h
  | Complex e => simp [ConvertType] at h
  | Other n => simp [ConvertType] at h

theorem Convert_ok_mem (irText : MType → String) (type : MFunctionType)
    (f : FunctionType) (h : FunctionType.Convert irText type = .ok f) :
    ∀ r ∈ f.operands ++ f.results,
      ∃ t ∈ type.inputs ++ type.results, ConvertType irText t = .ok r := by
  simp only [FunctionType.Convert] at h
  cases h1 : convertLoop irText "input" type.inputs 0 [] with
  | error e1 => simp [h1] at h
  | ok ops =>
      cases h2 : convertLoop irText "result" type.results 0 [] with
      | error e2 => simp [h1, h2] at h
      | ok res =>
          simp only [h1, h2, Except.ok.injEq] at h
          subst h
          obtain ⟨rs1, e1, hm1⟩ :=
            (convertLoop_ok_iff irText "input" type.inputs 0 [] ops).mp h1
          obtain ⟨rs2, e2, hm2⟩ :=
            (convertLoop_ok_iff irText "result" type.results 0 [] res).mp h2
          simp only [List.nil_append] at e1 e2
          subst e1 e2
          have key : ∀ (ts : List MType) (rs : List RuntimeType),
              ts.map (ConvertType irText) = rs.map Except.ok →
              ∀ r ∈ rs, ∃ t ∈ ts, ConvertType irText t = .ok r := by
            intro ts rs hm r hr
            have : (Except.ok r : Except String RuntimeType) ∈ rs.map Except.ok :=
              List.mem_map_of_mem _ hr
            rw [← hm] at this
            obtain ⟨t, ht, hte⟩ := List.mem_map.mp this
            exact ⟨t, ht, hte⟩
          intro r hr
          rcases List.mem_append.mp hr with hr | hr
          · obtain ⟨t, ht, hte⟩ := key _ _ hm1 r hr
            exact ⟨t, List.mem_append_left _ ht, hte⟩
          · obtain ⟨t, ht, hte⟩ := key _ _ hm2 r hr
            exact ⟨t, List.mem_append_right _ ht, hte⟩

/-- C4. The async-value invariant: `ConvertType` of an async value whose
wrapped type is not a ranked memref fails with `async value can only hold
memref type`; hence in every runtime type that `ConvertType` returns, every
`AsyncValueType` node wraps a `MemrefType`, and so it is for every operand and
result of a `FunctionType` returned by `FunctionType::Convert`. -/
theorem ConvertType_async_value_invariant (irText : MType → String) :
    (∀ v : MType, v.isaMemRef = false →
      ConvertType irText (.AsyncValue v) =
        .error "async value can only hold memref type") ∧
    (∀ (t : MType) (r : RuntimeType), ConvertType irText t = .ok r →
      r.asyncValuesHoldMemref = true) ∧
    (∀ (type : MFunctionType) (f : FunctionType),
      FunctionType.Convert irText type = .ok f →
      ∀ r ∈ f.operands ++ f.results, r.asyncValuesHoldMemref = true) := by
  refine ⟨?_, ConvertType_asyncValuesHoldMemref irText, ?_⟩
  · intro v hv
    simp [ConvertType, hv]
  · intro type f h r hr
    obtain ⟨t, _, ht⟩ := Convert_ok_mem irText type f h r hr
    exact ConvertType_asyncValuesHoldMemref irText t r ht

/-- Witness of C4: an async value of a ranked tensor, of an unranked memref, of
a token and of an async value are rejected; the converted
`!async.value<memref<2xf32>>` wraps a memref. -/
theorem ConvertType_async_value_invariant_witness :
    ConvertType irTypeText (.AsyncValue (.RankedTensor [2] .F32)) =
        .error "async value can only hold memref type" ∧
    ConvertType irTypeText (.AsyncValue (.UnrankedMemRef .F32)) =
        .error "async value can only hold memref type" ∧
    ConvertType irTypeText (.AsyncValue .AsyncToken) =
        .error "async value can only hold memref type" ∧
    ConvertType irTypeText (.AsyncValue (.AsyncValue (.MemRef [2] .F32))) =
        .error "async value can only hold memref type" ∧
    (RuntimeType.AsyncValueType (.MemrefType [2] .F32)).asyncValuesHoldMemref = true :=
  ⟨(ConvertType_async_value_invariant irTypeText).1 _ rfl,
   (ConvertType_async_value_invariant irTypeText).1 _ rfl,
   (ConvertType_async_value_invariant irTypeText).1 _ rfl,
   (ConvertType_async_value_invariant irTypeText).1 _ rfl,
   (ConvertType_async_value_invariant irTypeText).2.1
      (.AsyncValue (.MemRef [2] .F32)) _ rfl⟩

end jitrt
namespace jitrt

theorem ConvertType_shaped_error_iff (irText : MType → String) (el : MType)
    (e : String) (mk : DType → RuntimeType) :
    (match ConvertElementType irText el with
      | .error err => (Except.error err : Except String RuntimeType)
      | .ok element_type => .ok (mk element_type)) = .error e ↔
      ConvertElementType irText el = .error e := by
  cases h : ConvertElementType irText el <;> simp

/-- C5. `ConvertType` fails in exactly three cases: (1) the IR type is of none
of the seven boundary kinds, with the error `unsupported type: ` followed by the
type (a bare `f32` or `i32`, which `ConvertElementType` accepts, is such a
type); (2) it is a ranked or unranked tensor or memref whose element
`ConvertElementType` rejects, with that very error; (3) it is an async value
whose payload is not a ranked memref, with the error `async value can only
hold memref type`, or is a ranked memref with a rejected element, with the
element's error unchanged. -/
theorem ConvertType_error_iff (irText : MType → String) :
    (∀ (t : MType) (e : String),
      ConvertType irText t = .error e ↔
        (t.isBoundaryKind = false ∧ e = "unsupported type: " ++ irText t) ∨
        (∃ s el, (t = .RankedTensor s el ∨ t = .UnrankedTensor el ∨
            t = .MemRef s el ∨ t = .UnrankedMemRef el) ∧
          ConvertElementType irText el = .error e) ∨
        (∃ v, t = .AsyncValue v ∧
          ((v.isaMemRef = false ∧ e = "async value can only hold memref type") ∨
           (∃ s el, v = .MemRef s el ∧ ConvertElementType irText el = .error e)))) ∧
    (ConvertElementType irText .F32 = .ok .F32 ∧
      ConvertType irText .F32 = .error ("unsupported type: " ++ irText .F32)) ∧
    (ConvertElementType irText (.Integer 32 .Signless) = .ok .I32 ∧
      ConvertType irText (.Integer 32 .Signless) =
        .error ("unsupported type: " ++ irText (.Integer 32 .Signless))) := by
  refine ⟨?_, ⟨rfl, rfl⟩, ⟨rfl, rfl⟩⟩
  intro t e
  have fall : ∀ u : MType, u.isBoundaryKind = false →
      ConvertType irText u = .error ("unsupported type: " ++ irText u) := by
    intro u hu
    cases u <;> first | rfl | simp [MType.isBoundaryKind] at hu
  cases hk : t.isBoundaryKind with
  | false =>
      rw [fall t hk]
      constructor
      · intro h
        exact Or.inl ⟨rfl, (Except.error.inj h).symm⟩
      · rintro (⟨_, rfl⟩ | ⟨s, el, h, _⟩ | ⟨v, rfl, _⟩)
        · rfl
        · rcases h with rfl | rfl | rfl | rfl <;> simp [MType.isBoundaryKind] at hk
        · simp [MType.isBoundaryKind] at hk
  | true =>
      cases t with
      | AsyncToken => simp [ConvertType]
      | KernelContext => simp [ConvertType]
      | F16 => simp [MType.isBoundaryKind] at hk
      | BF16 => simp [MType.isBoundaryKind] at hk
      | F32 => simp [MType.isBoundaryKind] at hk
      | F64 => simp [MType.isBoundaryKind] at hk
      | Index => simp [MType.isBoundaryKind] at hk
      | Integer w sg => simp [MType.isBoundaryKind] at hk
      | Complex c => simp [MType.isBoundaryKind] at hk
      | Other n => simp [MType.isBoundaryKind] at hk
      | RankedTensor s el =>
          simp only [ConvertType, ConvertType_shaped_error_iff]
          constructor
          · intro h
            exact Or.inr (Or.inl ⟨s, el, Or.inl rfl, h⟩)
          · rintro (⟨h, _⟩ | ⟨s1, el1, h, h1⟩ | ⟨v, h, _⟩)
            · simp [hk] at h
            · simp only [MType.RankedTensor.injEq, reduceCtorEq, or_false] at h
              obtain ⟨rfl, rfl⟩ := h
              exact h1
            · cases h
      | UnrankedTensor el =>
          simp only [ConvertType, ConvertType_shaped_error_iff]
          constructor
          · intro h
            exact Or.inr (Or.inl ⟨[], el, Or.inr (Or.inl rfl), h⟩)
          · rintro (⟨h, _⟩ | ⟨s1, el1, h, h1⟩ | ⟨v, h, _⟩)
            · simp [hk] at h
            · simp only [MType.UnrankedTensor.injEq, reduceCtorEq, or_false,
                false_or] at h
              subst h
              exact h1
            · cases h
      | MemRef s el =>
          simp only [ConvertType, ConvertType_shaped_error_iff]
          constructor
          · intro h
            exact Or.inr (Or.inl ⟨s, el, Or.inr (Or.inr (Or.inl rfl)), h⟩)
          · rintro (⟨h, _⟩ | ⟨s1, el1, h, h1⟩ | ⟨v, h, _⟩)
            · simp [hk] at h
            · simp only [MType.MemRef.injEq, reduceCtorEq, or_false, false_or] at h
              obtain ⟨rfl, rfl⟩ := h
              exact h1
            · cases h
      | UnrankedMemRef el =>
          simp only [ConvertType, ConvertType_shaped_error_iff]
          constructor
          · intro h
            exact Or.inr (Or.inl ⟨[], el, Or.inr (Or.inr (Or.inr rfl)), h⟩)
          · rintro (⟨h, _⟩ | ⟨s1, el1, h, h1⟩ | ⟨v, h, _⟩)
            · simp [hk] at h
            · simp only [MType.UnrankedMemRef.injEq, reduceCtorEq, false_or] at h
              subst h
              exact h1
            · cases h
      | AsyncValue v =>
          cases hv : v.isaMemRef with
          | false =>
              simp only [ConvertType, hv]
              constructor
              · intro h
                exact Or.inr (Or.inr ⟨v, rfl, Or.inl ⟨hv, by
                  simpa using (Except.error.inj h).symm⟩⟩)
              · rintro (⟨h, _⟩ | ⟨s, el, h, _⟩ | ⟨v1, h, h1⟩)
                · simp [hk] at h
                · simp at h
                · simp only [MType.AsyncValue.injEq] at h
                  subst h
                  rcases h1 with ⟨_, rfl⟩ | ⟨s, el, rfl, _⟩
                  · simp
                  · simp [MType.isaMemRef] at hv
          | true =>
              cases v <;> simp [MType.isaMemRef] at hv
              rename_i s el
              simp only [ConvertType, MType.isaMemRef]
              constructor
              · intro h
                refine Or.inr (Or.inr ⟨_, rfl, Or.inr ⟨s, el, rfl, ?_⟩⟩)
                cases he : ConvertElementType irText el with
                | error err => simpa [he] using h
                | ok d => simp [he] at h
              · rintro (⟨h, _⟩ | ⟨s1, el1, h, _⟩ | ⟨v1, h, h1⟩)
                · simp [hk] at h
                · simp at h
                · simp only [MType.AsyncValue.injEq] at h
                  subst h
                  rcases h1 with ⟨h2, _⟩ | ⟨s1, el1, h2, h3⟩
                  · simp [MType.isaMemRef] at h2
                  · simp only [MType.MemRef.injEq] at h2
                    obtain ⟨rfl, rfl⟩ := h2
                    simp [h3]

/-- Witness of C5: `index` is of no boundary kind; `tensor<2xf16>` has a
rejected element; `!async.value<memref<2xf16>>` passes the element's error
on. -/
theorem ConvertType_error_iff_witness :
    ConvertType irTypeText .Index = .error "unsupported type: index" ∧
    ConvertType irTypeText (.RankedTensor [2] .F16) =
        .error "unsupported element type: f16" ∧
    ConvertType irTypeText (.AsyncValue (.MemRef [2] .F16)) =
        .error "unsupported element type: f16" :=
  ⟨((ConvertType_error_iff irTypeText).1 .Index _).mpr (Or.inl ⟨rfl, rfl⟩),
   ((ConvertType_error_iff irTypeText).1 (.RankedTensor [2] .F16) _).mpr
      (Or.inr (Or.inl ⟨[2], .F16, Or.inl rfl, rfl⟩)),
   ((ConvertType_error_iff irTypeText).1 (.AsyncValue (.MemRef [2] .F16)) _).mpr
      (Or.inr (Or.inr ⟨_, rfl, Or.inr ⟨[2], .F16, rfl, rfl⟩⟩))⟩

end jitrt
namespace jitrt

/-! ## `ConvertElementType` -/

/-- C6. `ConvertElementType` succeeds on every supported element type: `F32`
for `f32`, `F64` for `f64`, `UI8`/`UI16`/`UI32`/`UI64` for the unsigned
integers of width 8/16/32/64, `I1`/`I8`/`I16`/`I32`/`I64` for the signless
integers of width 1/8/16/32/64, `Complex64` for `complex<f32>` and `Complex128`
for `complex<f64>`; and each of the thirteen values of `DType` is the result
for some IR element type. -/
theorem ConvertElementType_total_onto (irText : MType → String) :
    ConvertElementType irText .F32 = .ok .F32 ∧
    ConvertElementType irText .F64 = .ok .F64 ∧
    ConvertElementType irText (.Integer 8 .Unsigned) = .ok .UI8 ∧
    ConvertElementType irText (.Integer 16 .Unsigned) = .ok .UI16 ∧
    ConvertElementType irText (.Integer 32 .Unsigned) = .ok .UI32 ∧
    ConvertElementType irText (.Integer 64 .Unsigned) = .ok .UI64 ∧
    ConvertElementType irText (.Integer 1 .Signless) = .ok .I1 ∧
    ConvertElementType irText (.Integer 8 .Signless) = .ok .I8 ∧
    ConvertElementType irText (.Integer 16 .Signless) = .ok .I16 ∧
    ConvertElementType irText (.Integer 32 .Signless) = .ok .I32 ∧
    ConvertElementType irText (.Integer 64 .Signless) = .ok .I64 ∧
    ConvertElementType irText (.Complex .F32) = .ok .Complex64 ∧
    ConvertElementType irText (.Complex .F64) = .ok .Complex128 ∧
    (∀ d : DType, d ∈ [DType.I1, .I8, .I16, .I32, .I64, .UI8, .UI16, .UI32, .UI64,
        .F32, .F64, .Complex64, .Complex128] ∧
      ∃ t : MType, ConvertElementType irText t = .ok d) := by
  refine ⟨rfl, rfl, rfl, rfl, rfl, rfl, rfl, rfl, rfl, rfl, rfl, rfl, rfl, ?_⟩
  intro d
  cases d
  · exact ⟨by decide, .Integer 1 .Signless, rfl⟩
  · exact ⟨by decide, .Integer 8 .Signless, rfl⟩
  · exact ⟨by decide, .Integer 16 .Signless, rfl⟩
  · exact ⟨by decide, .Integer 32 .Signless, rfl⟩
  · exact ⟨by decide, .Integer 64 .Signless, rfl⟩
  · exact ⟨by decide, .Integer 8 .Unsigned, rfl⟩
  · exact ⟨by decide, .Integer 16 .Unsigned, rfl⟩
  · exact ⟨by decide, .Integer 32 .Unsigned, rfl⟩
  · exact ⟨by decide, .Integer 64 .Unsigned, rfl⟩
  · exact ⟨by decide, .F32, rfl⟩
  · exact ⟨by decide, .F64, rfl⟩
  · exact ⟨by decide, .Complex .F32, rfl⟩
  · exact ⟨by decide, .Complex .F64, rfl⟩

/-- The element types that `ConvertElementType` supports: `f32`, `f64`, an
integer type of width 1, 8, 16, 32 or 64, a complex type of `f32` or `f64`. -/
theorem ConvertElementType_ok_iff (irText : MType → String) (t : MType) :
    (∃ d, ConvertElementType irText t = .ok d) ↔
      (t = .F32 ∨ t = .F64 ∨
        (∃ w sg, t = .Integer w sg ∧ (w = 1 ∨ w = 8 ∨ w = 16 ∨ w = 32 ∨ w = 64)) ∨
        (∃ el, t = .Complex el ∧ (el = .F32 ∨ el = .F64))) := by
  cases t with
  | Integer w sg =>
      simp only [ConvertElementType, MType.isF32, MType.isF64, MType.isInteger,
        MType.isUnsignedInteger, MType.dynCastComplex]
      by_cases h1 : w = 1
      · subst h1; cases sg <;> simp
      by_cases h8 : w = 8
      · subst h8; cases sg <;> simp
      by_cases h16 : w = 16
      · subst h16; cases sg <;> simp
      by_cases h32 : w = 32
      · subst h32; cases sg <;> simp
      by_cases h64 : w = 64
      · subst h64; cases sg <;> simp
      cases sg <;> simp [h1, h8, h16, h32, h64]
  | Complex el =>
      cases el <;>
        simp [ConvertElementType, MType.isF32, MType.isF64, MType.isInteger,
          MType.isUnsignedInteger, MType.dynCastComplex]
  | _ =>
      simp [ConvertElementType, MType.isF32, MType.isF64, MType.isInteger,
        MType.isUnsignedInteger, MType.dynCastComplex]

theorem ConvertElementType_ok_or_msg (irText : MType → String) (t : MType) :
    (∃ d, ConvertElementType irText t = .ok d) ∨
      ConvertElementType irText t =
        .error ("unsupported element type: " ++ irText t) := by
  cases t with
  | Integer w sg =>
      by_cases h : (∃ d, ConvertElementType irText (.Integer w sg) = .ok d)
      · exact Or.inl h
      · right
        rw [ConvertElementType_ok_iff] at h
        have hw : ¬ (w = 1 ∨ w = 8 ∨ w = 16 ∨ w = 32 ∨ w = 64) := by
          intro hw
          exact h (Or.inr (Or.inr (Or.inl ⟨w, sg, rfl, hw⟩)))
        simp only [not_or] at hw
        obtain ⟨h1, h8, h16, h32, h64⟩ := hw
        cases sg <;>
          simp [ConvertElementType, MType.isF32, MType.isF64, MType.isInteger,
            MType.isUnsignedInteger, MType.dynCastComplex, h1, h8, h16, h32, h64]
  | Complex el =>
      cases el <;>
        simp [ConvertElementType, MType.isF32, MType.isF64, MType.isInteger,
          MType.isUnsignedInteger, MType.dynCastComplex]
  | _ =>
      simp [ConvertElementType, MType.isF32, MType.isF64, MType.isInteger,
        MType.isUnsignedInteger, MType.dynCastComplex]

theorem ConvertElementType_error_msg (irText : MType → String) (t : MType)
    (e : String) (h : ConvertElementType irText t = .error e) :
    e = "unsupported element type: " ++ irText t := by
  rcases ConvertElementType_ok_or_msg irText t with ⟨d, hd⟩ | hm
  · rw [hd] at h; cases h
  · rw [hm] at h; exact (Except.error.inj h).symm

end jitrt
namespace jitrt

/-- C7. `ConvertElementType` returns an error exactly when the IR type is not
`f32`, not `f64`, not an integer type of width 1, 8, 16, 32 or 64, and not a
complex type whose element is `f32` or `f64`; the error message is
`unsupported element type: ` followed by the offending type. It fails in
particular for `f16`, `bf16`, `index`, `i4`, `i128`, `complex<f16>`,
`complex<i32>`, and for every tensor or memref type passed as an element. -/
theorem ConvertElementType_error_iff (irText : MType → String) :
    (∀ t : MType,
      (∃ e, ConvertElementType irText t = .error e) ↔
        (t ≠ .F32 ∧ t ≠ .F64 ∧
          (∀ w sg, t = .Integer w sg → ¬ (w = 1 ∨ w = 8 ∨ w = 16 ∨ w = 32 ∨ w = 64)) ∧
          (∀ el, t = .Complex el → ¬ (el = .F32 ∨ el = .F64)))) ∧
    (∀ (t : MType) (e : String), ConvertElementType irText t = .error e →
      e = "unsupported element type: " ++ irText t) ∧
    (∀ t : MType,
      (t = .F16 ∨ t = .BF16 ∨ t = .Index ∨ t = .Integer 4 .Signless ∨
        t = .Integer 128 .Signless ∨ t = .Complex .F16 ∨
        t = .Complex (.Integer 32 .Signless) ∨
        (∃ s el, t = .RankedTensor s el ∨ t = .UnrankedTensor el ∨
          t = .MemRef s el ∨ t = .UnrankedMemRef el)) →
      ConvertElementType irText t =
        .error ("unsupported element type: " ++ irText t)) := by
  have hiff : ∀ t : MType,
      (∃ e, ConvertElementType irText t = .error e) ↔
        (t ≠ .F32 ∧ t ≠ .F64 ∧
          (∀ w sg, t = .Integer w sg → ¬ (w = 1 ∨ w = 8 ∨ w = 16 ∨ w = 32 ∨ w = 64)) ∧
          (∀ el, t = .Complex el → ¬ (el = .F32 ∨ el = .F64))) := by
    intro t
    have hok := ConvertElementType_ok_iff irText t
    have hne : (∃ e, ConvertElementType irText t = .error e) ↔
        ¬ ∃ d, ConvertElementType irText t = .ok d := by
      cases h : ConvertElementType irText t with
      | error e => simp
      | ok d => simp
    rw [hne, hok]
    constructor
    · intro h
      refine ⟨fun h1 => h (Or.inl h1), fun h2 => h (Or.inr (Or.inl h2)), ?_, ?_⟩
      · intro w sg ht hw
        exact h (Or.inr (Or.inr (Or.inl ⟨w, sg, ht, hw⟩)))
      · intro el ht hel
        exact h (Or.inr (Or.inr (Or.inr ⟨el, ht, hel⟩)))
    · rintro ⟨h1, h2, h3, h4⟩ (h | h | ⟨w, sg, ht, hw⟩ | ⟨el, ht, hel⟩)
      · exact h1 h
      · exact h2 h
      · exact h3 w sg ht hw
      · exact h4 el ht hel
  refine ⟨hiff, ConvertElementType_error_msg irText, ?_⟩
  intro t ht
  have herr : ∃ e, ConvertElementType irText t = .error e := by
    rw [hiff]
    rcases ht with rfl | rfl | rfl | rfl | rfl | rfl | rfl | ⟨s, el, rfl | rfl | rfl | rfl⟩ <;>
      simp
  obtain ⟨e, he⟩ := herr
  rw [he, ConvertElementType_error_msg irText t e he]

/-- Witness of C7: `i4` is rejected and the message names it. -/
theorem ConvertElementType_error_iff_witness :
    (∃ e, ConvertElementType irTypeText (.Integer 4 .Signless) = .error e) ∧
    ConvertElementType irTypeText (.Integer 4 .Signless) =
      .error "unsupported element type: i4" ∧
    ConvertElementType irTypeText (.RankedTensor [2] .F32) =
      .error "unsupported element type: tensor<2xf32>" :=
  ⟨((ConvertElementType_error_iff irTypeText).1 (.Integer 4 .Signless)).mpr
      ⟨by decide, by decide, by
        intro w sg h
        simp only [MType.Integer.injEq] at h
        obtain ⟨rfl, _⟩ := h
        decide, by
        intro el h
        cases h⟩,
   (ConvertElementType_error_iff irTypeText).2.2 (.Integer 4 .Signless)
      (Or.inr (Or.inr (Or.inr (Or.inl rfl)))),
   (ConvertElementType_error_iff irTypeText).2.2 (.RankedTensor [2] .F32)
      (Or.inr (Or.inr (Or.inr (Or.inr (Or.inr (Or.inr (Or.inr
        ⟨[2], .F32, Or.inl rfl⟩)))))))⟩

end jitrt
namespace jitrt

/-! ## Printing -/

theorem foldl_eq_intercalate_go :
    ∀ (rest : List Int) (acc : String),
      rest.foldl (fun os d => os ++ "x" ++ toString d) acc =
        String.intercalate.go acc "x" (rest.map toString) := by
  intro rest
  induction rest with
  | nil => intro acc; rfl
  | cons d rest ih =>
      intro acc
      simp only [List.foldl_cons, List.map_cons, String.intercalate.go]
      exact ih _

theorem print_arr_eq_intercalate (arr : List Int) :
    print_arr arr = "x".intercalate (arr.map toString) := by
  cases arr with
  | nil => rfl
  | cons a rest =>
      simp only [print_arr, List.map_cons, String.intercalate]
      exact foldl_eq_intercalate_go rest _

/-- C8. Canonical printing of shaped types: a `RankedTensorType` with the
non-empty shape `D0, ..., Dn-1` and element `E` prints as `tensor<`, the sizes
in order, each as the decimal form of its stored value and separated by `x`,
then `x`, the printed element and `>`; a `MemrefType` prints the same after
`memref<`; `UnrankedTensorType` and `UnrankedMemrefType` print `tensor<*xE>`
and `memref<*xE>`. The right-hand sides mention the variant's prefix, the
shape and the element only. For instance `tensor<2x2xf32>`. -/
theorem printType_shaped (dtypeText : DType → String) (d0 : Int) (ds : List Int)
    (E : DType) :
    printType dtypeText (.RankedTensorType (d0 :: ds) E) =
      "tensor<" ++ "x".intercalate ((d0 :: ds).map toString) ++ "x" ++
        dtypeText E ++ ">" ∧
    printType dtypeText (.MemrefType (d0 :: ds) E) =
      "memref<" ++ "x".intercalate ((d0 :: ds).map toString) ++ "x" ++
        dtypeText E ++ ">" ∧
    printType dtypeText (.UnrankedTensorType E) = "tensor<*x" ++ dtypeText E ++ ">" ∧
    printType dtypeText (.UnrankedMemrefType E) = "memref<*x" ++ dtypeText E ++ ">" ∧
    printType dtypeName (.RankedTensorType [2, 2] .F32) = "tensor<2x2xf32>" ∧
    printType dtypeName (.MemrefType [2] .I32) = "memref<2xi32>" ∧
    printType dtypeName (.UnrankedTensorType .F32) = "tensor<*xf32>" := by
  refine ⟨?_, ?_, rfl, rfl, by decide, by decide, by decide⟩
  · simp only [printType, print_arr_eq_intercalate]
  · simp only [printType, print_arr_eq_intercalate]

end jitrt
namespace jitrt

/-! ## Convert, then print -/

theorem intercalate_go_append_singleton (s : String) :
    ∀ (l : List String) (acc e : String),
      String.intercalate.go acc s (l ++ [e]) =
        String.intercalate.go acc s l ++ s ++ e := by
  intro l
  induction l with
  | nil => intro acc e; rfl
  | cons a l ih =>
      intro acc e
      simp only [List.cons_append, String.intercalate.go]
      exact ih _ _

theorem intercalate_append_singleton (s a e : String) (l : List String) :
    s.intercalate ((a :: l) ++ [e]) = s.intercalate (a :: l) ++ s ++ e := by
  simp only [List.cons_append, String.intercalate]
  exact intercalate_go_append_singleton s l a e

/-- Printing agrees with the canonical text on every runtime type in which no
ranked tensor or memref has an empty shape. -/
theorem printType_eq_canonicalText (dtypeText : DType → String) :
    ∀ r : RuntimeType, r.shapesNonEmpty = true →
      printType dtypeText r = canonicalText dtypeText r := by
  intro r
  induction r with
  | AsyncTokenType => intro _; rfl
  | KernelContextOperandType => intro _; rfl
  | AsyncValueType v ih =>
      intro h
      simp only [RuntimeType.shapesNonEmpty] at h
      simp only [printType, canonicalText, ih h]
  | RankedTensorType sizes el =>
      intro h
      cases sizes with
      | nil => simp [RuntimeType.shapesNonEmpty] at h
      | cons d ds =>
          simp only [printType, canonicalText, print_arr_eq_intercalate, List.map_cons,
            intercalate_append_singleton, String.append_assoc]
  | MemrefType sizes el =>
      intro h
      cases sizes with
      | nil => simp [RuntimeType.shapesNonEmpty] at h
      | cons d ds =>
          simp only [printType, canonicalText, print_arr_eq_intercalate, List.map_cons,
            intercalate_append_singleton, String.append_assoc]
  | UnrankedTensorType el =>
      intro _
      simp only [printType, canonicalText, String.intercalate, String.intercalate.go,
        String.append_assoc]
      rfl
  | UnrankedMemrefType el =>
      intro _
      simp only [printType, canonicalText, String.intercalate, String.intercalate.go,
        String.append_assoc]
      rfl

/-- The text printed for each operand and result of a converted function type
is the text of converting that IR type on its own: it depends neither on the
position nor on the other types of the signature. -/
theorem Convert_print_pointwise (irText : MType → String)
    (dtypeText : DType → String) (type : MFunctionType) (f : FunctionType)
    (h : FunctionType.Convert irText type = .ok f) :
    type.inputs.map (fun t => (ConvertType irText t).map (printType dtypeText)) =
        f.operands.map (fun r => .ok (printType dtypeText r)) ∧
    type.results.map (fun t => (ConvertType irText t).map (printType dtypeText)) =
        f.results.map (fun r => .ok (printType dtypeText r)) := by
  simp only [FunctionType.Convert] at h
  cases h1 : convertLoop irText "input" type.inputs 0 [] with
  | error e1 => simp [h1] at h
  | ok ops =>
      cases h2 : convertLoop irText "result" type.results 0 [] with
      | error e2 => simp [h1, h2] at h
      | ok res =>
          simp only [h1, h2, Except.ok.injEq] at h
          subst h
          obtain ⟨rs1, e1, hm1⟩ :=
            (convertLoop_ok_iff irText "input" type.inputs 0 [] ops).mp h1
          obtain ⟨rs2, e2, hm2⟩ :=
            (convertLoop_ok_iff irText "result" type.results 0 [] res).mp h2
          simp only [List.nil_append] at e1 e2
          subst e1 e2
          have key : ∀ (ts : List MType) (rs : List RuntimeType),
              ts.map (ConvertType irText) = rs.map Except.ok →
              ts.map (fun t => (ConvertType irText t).map (printType dtypeText)) =
                rs.map (fun r => .ok (printType dtypeText r)) := by
            intro ts rs hm
            have := congrArg (List.map (Except.map (printType dtypeText))) hm
            simpa [List.map_map, Function.comp_def, Except.map] using this
          exact ⟨key _ _ hm1, key _ _ hm2⟩

/-- C9. Convert, then print, at the rank-0 tensor `tensor<f32>`: `ConvertType`
accepts it, `operator<<` writes `tensor<xf32>` for the converted type, and the
canonical text is `tensor<f32>`; the two differ, so the round trip does not
hold for every accepted IR type. -/
theorem convert_then_print_rank0 :
    ConvertType irTypeText (.RankedTensor [] .F32) = .ok (.RankedTensorType [] .F32) ∧
    printType dtypeName (.RankedTensorType [] .F32) = "tensor<xf32>" ∧
    canonicalText dtypeName (.RankedTensorType [] .F32) = "tensor<f32>" ∧
    printType dtypeName (.RankedTensorType [] .F32) ≠
      canonicalText dtypeName (.RankedTensorType [] .F32) := by
  refine ⟨rfl, by decide, by decide, by decide⟩

end jitrt
namespace jitrt

/-! ## In-flight diagnostics -/

theorem reportTimes_cleared (n : Nat) (log : EmitLog) :
    InFlightDiagnostic.reportTimes n { engine_ := none, diagnostic_ := none } log =
      some ({ engine_ := none, diagnostic_ := none }, log) := by
  induction n with
  | zero => rfl
  | succ n ih =>
      simp only [InFlightDiagnostic.reportTimes, InFlightDiagnostic.Report,
        InFlightDiagnostic.IsInFlight, Option.isSome_none, Bool.false_eq_true, if_false]
      exact ih

/-- C10. `InFlightDiagnostic::Report` emits exactly once: on an in-flight
diagnostic (attached to `engine`, holding `diagnostic`) the first `Report`
hands the diagnostic to that engine once (the log grows by that one entry) and
leaves the object cleared: no engine, no diagnostic, not in flight; a `Report`
on the cleared object emits nothing and leaves object and log unchanged; so
`Report` twice does what `Report` once does, and any number `n ≥ 1` of `Report`
calls yields exactly one emission. -/
theorem InFlightDiagnostic.Report_once (d : InFlightDiagnostic) (log : EmitLog)
    (engine : Nat) (diagnostic : Diagnostic)
    (hengine : d.engine_ = some engine) (hdiag : d.diagnostic_ = some diagnostic) :
    d.IsInFlight = true ∧
    d.Report log =
      some ({ engine_ := none, diagnostic_ := none }, log ++ [(engine, diagnostic)]) ∧
    ({ engine_ := none, diagnostic_ := none } : InFlightDiagnostic).IsInFlight = false ∧
    (∀ log1 : EmitLog,
      ({ engine_ := none, diagnostic_ := none } : InFlightDiagnostic).Report log1 =
        some ({ engine_ := none, diagnostic_ := none }, log1)) ∧
    InFlightDiagnostic.reportTimes 2 d log = InFlightDiagnostic.reportTimes 1 d log ∧
    (∀ n : Nat, 1 ≤ n →
      InFlightDiagnostic.reportTimes n d log =
        some ({ engine_ := none, diagnostic_ := none },
          log ++ [(engine, diagnostic)])) := by
  have hfirst : d.Report log =
      some ({ engine_ := none, diagnostic_ := none }, log ++ [(engine, diagnostic)]) := by
    simp [InFlightDiagnostic.Report, InFlightDiagnostic.IsInFlight, hengine, hdiag,
      DiagnosticEngine.Emit]
  have hn : ∀ n : Nat, 1 ≤ n →
      InFlightDiagnostic.reportTimes n d log =
        some ({ engine_ := none, diagnostic_ := none },
          log ++ [(engine, diagnostic)]) := by
    intro n hn
    cases n with
    | zero => omega
    | succ n =>
        simp only [InFlightDiagnostic.reportTimes, hfirst]
        exact reportTimes_cleared n _
  refine ⟨by simp [InFlightDiagnostic.IsInFlight, hengine], hfirst, rfl, ?_, ?_, hn⟩
  · intro log1
    rfl
  · rw [hn 2 (by omega), hn 1 (by omega)]

/-- Witness of C10: a diagnostic attached to engine 0, reported three times
after two earlier emissions of other diagnostics. -/
theorem InFlightDiagnostic.Report_once_witness :
    InFlightDiagnostic.reportTimes 3
        { engine_ := some 0, diagnostic_ := some { message := "failed to lower" } }
        [(0, { message := "a" }), (1, { message := "b" })] =
      some ({ engine_ := none, diagnostic_ := none },
        [(0, { message := "a" }), (1, { message := "b" })] ++
          [(0, { message := "failed to lower" })]) :=
  (InFlightDiagnostic.Report_once
    { engine_ := some 0, diagnostic_ := some { message := "failed to lower" } }
    [(0, { message := "a" }), (1, { message := "b" })] 0
    { message := "failed to lower" } rfl rfl).2.2.2.2.2 3 (by decide)

end jitrt

namespace jitrt

/-! ## Sequences of `Report` and `Abandon` -/

/-- On an object that is not in flight, every sequence of calls leaves the log
as it is and the object not in flight. -/
theorem run_not_in_flight :
    ∀ (cs : List DiagnosticCall) (d : InFlightDiagnostic) (log : EmitLog),
      d.engine_ = none →
      ∃ d1 : InFlightDiagnostic,
        InFlightDiagnostic.run cs d log = some (d1, log) ∧ d1.engine_ = none := by
  intro cs
  induction cs with
  | nil => intro d log h; exact ⟨d, rfl, h⟩
  | cons c cs ih =>
      intro d log h
      obtain ⟨e, g⟩ := d
      simp only at h
      subst h
      cases c with
      | Report =>
          obtain ⟨d1, h1, h2⟩ := ih { engine_ := none, diagnostic_ := none } log rfl
          refine ⟨d1, ?_, h2⟩
          simp only [InFlightDiagnostic.run, InFlightDiagnostic.call,
            InFlightDiagnostic.Report, InFlightDiagnostic.IsInFlight,
            Option.isSome_none, Bool.false_eq_true, if_false]
          exact h1
      | Abandon =>
          obtain ⟨d1, h1, h2⟩ := ih { engine_ := none, diagnostic_ := g } log rfl
          refine ⟨d1, ?_, h2⟩
          simp only [InFlightDiagnostic.run, InFlightDiagnostic.call,
            InFlightDiagnostic.Abandon]
          exact h1

/-- C11. `InFlightDiagnostic::Abandon` never contributes to the engine's log:
`Abandon` leaves the log as it is and the object not in flight, and every
sequence of `Report` and `Abandon` calls that begins with `Abandon` ends with
the log unchanged, so the engine receives nothing from the object; a `Report`
right after `Abandon` emits nothing. -/
theorem InFlightDiagnostic.Abandon_never_emits (d : InFlightDiagnostic)
    (log : EmitLog) :
    (∃ d1 : InFlightDiagnostic,
      d.Abandon log = some (d1, log) ∧ d1.IsInFlight = false) ∧
    (∀ cs : List DiagnosticCall, ∃ d1 : InFlightDiagnostic,
      InFlightDiagnostic.run (.Abandon :: cs) d log = some (d1, log) ∧
        d1.IsInFlight = false) ∧
    (∃ d1 : InFlightDiagnostic,
      InFlightDiagnostic.run [.Abandon, .Report] d log = some (d1, log)) := by
  have hseq : ∀ cs : List DiagnosticCall, ∃ d1 : InFlightDiagnostic,
      InFlightDiagnostic.run (.Abandon :: cs) d log = some (d1, log) ∧
        d1.IsInFlight = false := by
    intro cs
    obtain ⟨d1, h1, h2⟩ := run_not_in_flight cs { d with engine_ := none } log rfl
    refine ⟨d1, ?_, by simp [InFlightDiagnostic.IsInFlight, h2]⟩
    simp only [InFlightDiagnostic.run, InFlightDiagnostic.call,
      InFlightDiagnostic.Abandon]
    exact h1
  refine ⟨⟨{ d with engine_ := none }, rfl, rfl⟩, hseq, ?_⟩
  obtain ⟨d1, h1, _⟩ := hseq [.Report]
  exact ⟨d1, h1⟩

/-- C20. Emissions of one in-flight diagnostic (attached to `engine`, holding
`diagnostic`) over any finite sequence of `Report` and `Abandon` calls: the
sequence runs to an end, the engine receives at most one diagnostic from the
object, and exactly one, the held diagnostic, if and only if the sequence is
non-empty and its first call is `Report`; `Abandon` changes the engine link
only, the payload staying until a later `Report` drops it without emitting;
after the first call of either kind the object is not in flight. -/
theorem InFlightDiagnostic.emission_count (d : InFlightDiagnostic) (log : EmitLog)
    (engine : Nat) (diagnostic : Diagnostic)
    (hengine : d.engine_ = some engine) (hdiag : d.diagnostic_ = some diagnostic) :
    (∀ cs : List DiagnosticCall, ∃ (d1 : InFlightDiagnostic) (emitted : EmitLog),
      InFlightDiagnostic.run cs d log = some (d1, log ++ emitted) ∧
      emitted.length ≤ 1 ∧
      (emitted = [(engine, diagnostic)] ↔ cs.head? = some .Report) ∧
      (emitted = [] ↔ cs.head? ≠ some .Report) ∧
      (cs ≠ [] → d1.IsInFlight = false)) ∧
    d.Abandon log =
      some ({ engine_ := none, diagnostic_ := some diagnostic }, log) ∧
    ({ engine_ := none, diagnostic_ := some diagnostic } : InFlightDiagnostic).Report
      log = some ({ engine_ := none, diagnostic_ := none }, log) := by
  obtain ⟨e, g⟩ := d
  simp only at hengine hdiag
  subst hengine hdiag
  refine ⟨?_, rfl, rfl⟩
  intro cs
  cases cs with
  | nil =>
      exact ⟨{ engine_ := some engine, diagnostic_ := some diagnostic }, [],
        by simp [InFlightDiagnostic.run], by simp, by simp, by simp, by simp⟩
  | cons c cs =>
      cases c with
      | Report =>
          obtain ⟨d1, h1, h2⟩ := run_not_in_flight cs
            { engine_ := none, diagnostic_ := none } (log ++ [(engine, diagnostic)]) rfl
          refine ⟨d1, [(engine, diagnostic)], ?_, by simp, by simp, by simp, ?_⟩
          · simp only [InFlightDiagnostic.run, InFlightDiagnostic.call,
              InFlightDiagnostic.Report, InFlightDiagnostic.IsInFlight,
              Option.isSome_some, if_true, DiagnosticEngine.Emit]
            exact h1
          · intro _
            simp [InFlightDiagnostic.IsInFlight, h2]
      | Abandon =>
          obtain ⟨d1, h1, h2⟩ := run_not_in_flight cs
            { engine_ := none, diagnostic_ := some diagnostic } log rfl
          refine ⟨d1, [], ?_, by simp, by simp, by simp, ?_⟩
          · simp only [InFlightDiagnostic.run, InFlightDiagnostic.call,
              InFlightDiagnostic.Abandon, List.append_nil]
            exact h1
          · intro _
            simp [InFlightDiagnostic.IsInFlight, h2]

/-- Witness of C20: `Report`, `Abandon`, `Report` on a diagnostic attached to
engine 0 emits its diagnostic once. -/
theorem InFlightDiagnostic.emission_count_witness :
    ∃ (d1 : InFlightDiagnostic) (emitted : EmitLog),
      InFlightDiagnostic.run [.Report, .Abandon, .Report]
          { engine_ := some 0, diagnostic_ := some { message := "failed to lower" } }
          [(1, { message := "b" })] =
        some (d1, [(1, { message := "b" })] ++ emitted) ∧
      emitted.length ≤ 1 ∧
      (emitted = [(0, { message := "failed to lower" })] ↔
        [DiagnosticCall.Report, .Abandon, .Report].head? = some .Report) ∧
      (emitted = [] ↔
        [DiagnosticCall.Report, .Abandon, .Report].head? ≠ some .Report) ∧
      ([DiagnosticCall.Report, .Abandon, .Report] ≠ [] → d1.IsInFlight = false) :=
  (InFlightDiagnostic.emission_count
    { engine_ := some 0, diagnostic_ := some { message := "failed to lower" } }
    [(1, { message := "b" })] 0 { message := "failed to lower" } rfl rfl).1
    [.Report, .Abandon, .Report]

end jitrt

namespace jitrt

/-! ## The default diagnostic engine -/

theorem runProcess_initialised :
    ∀ (ops : List ProcessOp) (s : ProcessState) (engine : Nat),
      s.diagnostic_engine = some engine →
      (∀ p ∈ (runProcess ops s).1, p = engine) ∧
        (runProcess ops s).2.diagnostic_engine = some engine := by
  intro ops
  induction ops with
  | nil => intro s engine h; exact ⟨by simp [runProcess], h⟩
  | cons op ops ih =>
      intro s engine h
      cases op with
      | CallDefaultDiagnosticEngine =>
          have hcall : DiagnosticEngine.DefaultDiagnosticEngine s = (engine, s) := by
            simp [DiagnosticEngine.DefaultDiagnosticEngine, h]
          obtain ⟨h1, h2⟩ := ih s engine h
          simp only [runProcess, hcall]
          refine ⟨?_, h2⟩
          intro p hp
          rcases List.mem_cons.mp hp with rfl | hp
          · rfl
          · exact h1 p hp
      | OtherAllocation =>
          simp only [runProcess]
          exact ih _ engine h

/-- C15. The default diagnostic engine is a process-wide singleton: a call of
`DefaultDiagnosticEngine` with the static not yet initialised creates the
engine (the address returned by `new`) and stores it; a call with the static
initialised returns the stored engine and changes nothing; over every
sequence of operations of the process all calls return one and the same
engine, and once stored the engine is never replaced or reset. -/
theorem DefaultDiagnosticEngine_singleton (s : ProcessState) :
    (s.diagnostic_engine = none →
      DiagnosticEngine.DefaultDiagnosticEngine s =
        (s.nextAddress,
          { diagnostic_engine := some s.nextAddress,
            nextAddress := s.nextAddress + 1 })) ∧
    (∀ engine : Nat, s.diagnostic_engine = some engine →
      DiagnosticEngine.DefaultDiagnosticEngine s = (engine, s)) ∧
    (∀ ops : List ProcessOp, ∀ p ∈ (runProcess ops s).1,
      ∀ q ∈ (runProcess ops s).1, p = q) ∧
    (∀ (ops : List ProcessOp) (engine : Nat), s.diagnostic_engine = some engine →
      (runProcess ops s).2.diagnostic_engine = some engine) := by
  refine ⟨?_, ?_, ?_, ?_⟩
  · intro h
    simp [DiagnosticEngine.DefaultDiagnosticEngine, h]
  · intro engine h
    simp [DiagnosticEngine.DefaultDiagnosticEngine, h]
  · intro ops
    induction ops generalizing s with
    | nil => intro p hp; simp [runProcess] at hp
    | cons op ops ih =>
        cases op with
        | OtherAllocation =>
            simp only [runProcess]
            exact ih _
        | CallDefaultDiagnosticEngine =>
            have hinit : ∃ engine,
                (DiagnosticEngine.DefaultDiagnosticEngine s).1 = engine ∧
                (DiagnosticEngine.DefaultDiagnosticEngine s).2.diagnostic_engine =
                  some engine := by
              cases h : s.diagnostic_engine with
              | none => simp [DiagnosticEngine.DefaultDiagnosticEngine, h]
              | some e => simp [DiagnosticEngine.DefaultDiagnosticEngine, h]
            obtain ⟨engine, he1, he2⟩ := hinit
            obtain ⟨hall, _⟩ := runProcess_initialised ops _ engine he2
            have hmem : ∀ p ∈ (runProcess (.CallDefaultDiagnosticEngine :: ops) s).1,
                p = engine := by
              intro p hp
              simp only [runProcess, List.mem_cons] at hp
              rcases hp with rfl | hp
              · exact he1
              · exact hall p hp
            intro p hp q hq
            rw [hmem p hp, hmem q hq]
  · intro ops engine h
    exact (runProcess_initialised ops s engine h).2

/-- Witness of C15: from a fresh process, three calls interleaved with other
allocations return the engine created by the first call. -/
theorem DefaultDiagnosticEngine_singleton_witness :
    runProcess [.OtherAllocation, .CallDefaultDiagnosticEngine, .OtherAllocation,
        .CallDefaultDiagnosticEngine, .CallDefaultDiagnosticEngine]
        { diagnostic_engine := none, nextAddress := 100 } =
      ([101, 101, 101], { diagnostic_engine := some 101, nextAddress := 103 }) ∧
    DiagnosticEngine.DefaultDiagnosticEngine
        { diagnostic_engine := none, nextAddress := 100 } =
      (100, { diagnostic_engine := some 100, nextAddress := 101 }) :=
  ⟨by decide,
   (DefaultDiagnosticEngine_singleton
      { diagnostic_engine := none, nextAddress := 100 }).1 rfl⟩

end jitrt

namespace jitrt

/-! ## Exhaustive printing -/

theorem printTypeObject_toObject (dtypeText : DType → String) :
    ∀ r : RuntimeType,
      (printTypeObject dtypeText r.toObject).1 = printType dtypeText r ∧
      PrintBranch.Fallback ∉ (printTypeObject dtypeText r.toObject).2 ∧
      r.toObject.isOfSevenVariants = true := by
  intro r
  induction r with
  | AsyncValueType v ih =>
      obtain ⟨h1, h2, h3⟩ := ih
      simp only [RuntimeType.toObject, printTypeObject, printType, h1,
        TypeObject.isOfSevenVariants, h3, List.mem_cons, reduceCtorEq, false_or]
      exact ⟨trivial, h2, trivial⟩
  | AsyncTokenType => simp [RuntimeType.toObject, printTypeObject, printType,
      TypeObject.isOfSevenVariants]
  | KernelContextOperandType => simp [RuntimeType.toObject, printTypeObject, printType,
      TypeObject.isOfSevenVariants]
  | RankedTensorType s e => simp [RuntimeType.toObject, printTypeObject, printType,
      TypeObject.isOfSevenVariants]
  | UnrankedTensorType e => simp [RuntimeType.toObject, printTypeObject, printType,
      TypeObject.isOfSevenVariants]
  | MemrefType s e => simp [RuntimeType.toObject, printTypeObject, printType,
      TypeObject.isOfSevenVariants]
  | UnrankedMemrefType e => simp [RuntimeType.toObject, printTypeObject, printType,
      TypeObject.isOfSevenVariants]

theorem printTypeObject_no_fallback (dtypeText : DType → String) :
    ∀ o : TypeObject, o.isOfSevenVariants = true →
      PrintBranch.Fallback ∉ (printTypeObject dtypeText o).2 := by
  intro o
  induction o with
  | AsyncValueType v ih =>
      intro h
      simp only [TypeObject.isOfSevenVariants] at h
      simp only [printTypeObject, List.mem_cons, reduceCtorEq, false_or]
      exact ih h
  | OtherType n => intro h; simp [TypeObject.isOfSevenVariants] at h
  | AsyncTokenType => intro _; simp [printTypeObject]
  | KernelContextOperandType => intro _; simp [printTypeObject]
  | RankedTensorType s e => intro _; simp [printTypeObject]
  | UnrankedTensorType e => intro _; simp [printTypeObject]
  | MemrefType s e => intro _; simp [printTypeObject]
  | UnrankedMemrefType e => intro _; simp [printTypeObject]

/-- C16. Printing is exhaustive over the seven variants: on an object that is,
with every object nested in it, of one of the seven subclasses, `operator<<`
never takes the final `else` branch; every runtime type that `ConvertType`
returns and every operand and result of a converted `FunctionType` is such an
object (the wrapped type of an async value included), is printed through the
variant branches only, and its text is that of `printType`. An object of
another subclass does reach the final branch. -/
theorem printType_exhaustive (irText : MType → String) (dtypeText : DType → String) :
    (∀ o : TypeObject, o.isOfSevenVariants = true →
      PrintBranch.Fallback ∉ (printTypeObject dtypeText o).2) ∧
    (∀ (t : MType) (r : RuntimeType), ConvertType irText t = .ok r →
      r.toObject.isOfSevenVariants = true ∧
      PrintBranch.Fallback ∉ (printTypeObject dtypeText r.toObject).2 ∧
      (printTypeObject dtypeText r.toObject).1 = printType dtypeText r) ∧
    (∀ (type : MFunctionType) (f : FunctionType),
      FunctionType.Convert irText type = .ok f →
      ∀ r ∈ f.operands ++ f.results,
        r.toObject.isOfSevenVariants = true ∧
        PrintBranch.Fallback ∉ (printTypeObject dtypeText r.toObject).2) ∧
    (∀ name : String,
      printTypeObject dtypeText (.OtherType name) = ("<unknown type>", [.Fallback])) := by
  refine ⟨printTypeObject_no_fallback dtypeText, ?_, ?_, fun _ => rfl⟩
  · intro t r _
    obtain ⟨h1, h2, h3⟩ := printTypeObject_toObject dtypeText r
    exact ⟨h3, h2, h1⟩
  · intro type f _ r _
    obtain ⟨_, h2, h3⟩ := printTypeObject_toObject dtypeText r
    exact ⟨h3, h2⟩

/-- Witness of C16: the converted `!async.value<memref<2xf32>>` is printed
through the async-value branch and the memref branch. -/
theorem printType_exhaustive_witness :
    (RuntimeType.AsyncValueType (.MemrefType [2] .F32)).toObject.isOfSevenVariants =
        true ∧
    PrintBranch.Fallback ∉
      (printTypeObject dtypeName
        (RuntimeType.AsyncValueType (.MemrefType [2] .F32)).toObject).2 ∧
    (printTypeObject dtypeName
        (RuntimeType.AsyncValueType (.MemrefType [2] .F32)).toObject).1 =
      printType dtypeName (.AsyncValueType (.MemrefType [2] .F32)) :=
  (printType_exhaustive irTypeText dtypeName).2.1
    (.AsyncValue (.MemRef [2] .F32)) (.AsyncValueType (.MemrefType [2] .F32)) rfl

/-! ## Rank-0 printing -/

/-- C17. Rank-0 printing: for a `RankedTensorType` or `MemrefType` with an empty
shape `operator<<` writes `tensor<xE>` (`memref<xE>`): no dimension, but the
separator `x` before the element; this is not the text `tensor<E>`
(`memref<E>`). -/
theorem printType_rank0 (dtypeText : DType → String) (E : DType) :
    printType dtypeText (.RankedTensorType [] E) = "tensor<x" ++ dtypeText E ++ ">" ∧
    printType dtypeText (.MemrefType [] E) = "memref<x" ++ dtypeText E ++ ">" ∧
    printType dtypeText (.RankedTensorType [] E) ≠ "tensor<" ++ dtypeText E ++ ">" ∧
    printType dtypeText (.MemrefType [] E) ≠ "memref<" ++ dtypeText E ++ ">" ∧
    printType dtypeName (.RankedTensorType [] .F32) = "tensor<xf32>" := by
  have h1 : printType dtypeText (.RankedTensorType [] E) =
      "tensor<x" ++ dtypeText E ++ ">" := by
    simp only [printType, print_arr, String.append_empty]
    rfl
  have h2 : printType dtypeText (.MemrefType [] E) =
      "memref<x" ++ dtypeText E ++ ">" := by
    simp only [printType, print_arr, String.append_empty]
    rfl
  refine ⟨h1, h2, ?_, ?_, by decide⟩
  · rw [h1]
    intro h
    have := congrArg String.length h
    simp only [String.length_append] at this
    have e1 : "tensor<x".length = 8 := by decide
    have e2 : "tensor<".length = 7 := by decide
    omega
  · rw [h2]
    intro h
    have := congrArg String.length h
    simp only [String.length_append] at this
    have e1 : "memref<x".length = 8 := by decide
    have e2 : "memref<".length = 7 := by decide
    omega

/-! ## Signedness in `ConvertElementType` -/

/-- C18. Signedness precedence in `ConvertElementType`: for each width 8, 16,
32, 64 an integer type converts to the unsigned `DType` of that width exactly
when it is unsigned, and to the signed one when it is signed or signless, so
an unsigned type of these widths is never given the signed `DType`; for width
1 the result is `I1` whatever the signedness, the unsigned 1-bit integer
included. -/
theorem ConvertElementType_signedness (irText : MType → String) :
    (∀ p ∈ [(8, DType.UI8, DType.I8), (16, DType.UI16, DType.I16),
        (32, DType.UI32, DType.I32), (64, DType.UI64, DType.I64)],
      ∀ sg : Signedness,
        (ConvertElementType irText (.Integer p.1 sg) = .ok p.2.1 ↔ sg = .Unsigned) ∧
        (sg ≠ .Unsigned → ConvertElementType irText (.Integer p.1 sg) = .ok p.2.2) ∧
        ConvertElementType irText (.Integer p.1 .Unsigned) ≠ .ok p.2.2) ∧
    (∀ sg : Signedness, ConvertElementType irText (.Integer 1 sg) = .ok .I1) ∧
    ConvertElementType irText (.Integer 1 .Unsigned) = .ok .I1 := by
  refine ⟨?_, ?_, rfl⟩
  · intro p hp sg
    simp only [List.mem_cons, List.mem_singleton, List.not_mem_nil, or_false] at hp
    rcases hp with rfl | rfl | rfl | rfl <;> cases sg <;>
      simp [ConvertElementType, MType.isF32, MType.isF64, MType.isInteger,
        MType.isUnsignedInteger]
  · intro sg
    cases sg <;> rfl

/-- Witness of C18: the signed `si16` converts to `I16`. -/
theorem ConvertElementType_signedness_witness :
    ConvertElementType irTypeText (.Integer 16 .Signed) = .ok .I16 :=
  ((ConvertElementType_signedness irTypeText).1 (16, DType.UI16, DType.I16)
    (by decide) .Signed).2.1 (by decide)

end jitrt

namespace jitrt

/-! ## Decimal text of sizes -/

theorem isAlpha_not_digit (c : Char) (h : c.isAlpha = true) : c.isDigit = false := by
  simp only [Char.isAlpha, Char.isUpper, Char.isLower, Char.isDigit, Bool.or_eq_true,
    Bool.and_eq_true, decide_eq_true_eq, Bool.and_eq_false_imp, decide_eq_false_iff_not,
    ge_iff_le, UInt32.le_def, BitVec.le_def] at *
  have e1 : (UInt32.toBitVec 65).toNat = 65 := rfl
  have e2 : (UInt32.toBitVec 90).toNat = 90 := rfl
  have e3 : (UInt32.toBitVec 97).toNat = 97 := rfl
  have e4 : (UInt32.toBitVec 122).toNat = 122 := rfl
  have e5 : (UInt32.toBitVec 48).toNat = 48 := rfl
  have e6 : (UInt32.toBitVec 57).toNat = 57 := rfl
  omega

theorem isAlpha_not_sizeChar (c : Char) (h : c.isAlpha = true) :
    isSizeChar c = false := by
  have h1 := isAlpha_not_digit c h
  have h2 : c ≠ '-' := by rintro rfl; revert h; decide
  simp [isSizeChar, h1, h2]

theorem digitChar_spec (m : Nat) (h : m < 10) :
    (Nat.digitChar m).isDigit = true ∧ (Nat.digitChar m).toNat - 48 = m := by
  interval_cases m <;> decide

theorem digitsValue_append_singleton (l : List Char) (c : Char) :
    digitsValue (l ++ [c]) = 10 * digitsValue l + (c.toNat - 48) := by
  simp [digitsValue, List.foldl_append]

theorem toDigitsCore_spec :
    ∀ (fuel n : Nat) (ds : List Char), n < fuel →
      ∃ l, Nat.toDigitsCore 10 fuel n ds = l ++ ds ∧ l ≠ [] ∧
        (∀ c ∈ l, c.isDigit = true) ∧ digitsValue l = n := by
  intro fuel
  induction fuel with
  | zero => intro n ds h; omega
  | succ fuel ih =>
      intro n ds h
      obtain ⟨hd1, hd2⟩ := digitChar_spec (n % 10) (Nat.mod_lt _ (by decide))
      by_cases h0 : n / 10 = 0
      · refine ⟨[Nat.digitChar (n % 10)], ?_, by simp, ?_, ?_⟩
        · simp [Nat.toDigitsCore, h0]
        · intro c hc
          simp only [List.mem_singleton] at hc
          subst hc
          exact hd1
        · have : digitsValue [Nat.digitChar (n % 10)] =
              (Nat.digitChar (n % 10)).toNat - 48 := by
            simp [digitsValue]
          rw [this, hd2]
          omega
      · have hlt : n / 10 < fuel := by omega
        obtain ⟨l, hl1, _, hl3, hl4⟩ := ih (n / 10) (Nat.digitChar (n % 10) :: ds) hlt
        refine ⟨l ++ [Nat.digitChar (n % 10)], ?_, by simp, ?_, ?_⟩
        · simp [Nat.toDigitsCore, h0, hl1]
        · intro c hc
          rcases List.mem_append.mp hc with hc | hc
          · exact hl3 c hc
          · simp only [List.mem_singleton] at hc
            subst hc
            exact hd1
        · rw [digitsValue_append_singleton, hl4, hd2]
          omega

theorem natRepr_spec (n : Nat) :
    (Nat.repr n).data ≠ [] ∧ (∀ c ∈ (Nat.repr n).data, c.isDigit = true) ∧
      digitsValue (Nat.repr n).data = n := by
  obtain ⟨l, h1, h2, h3, h4⟩ := toDigitsCore_spec (n + 1) n [] (Nat.lt_succ_self n)
  have hdata : (Nat.repr n).data = l := by
    simp [Nat.repr, Nat.toDigits, h1, List.asString]
  rw [hdata]
  exact ⟨h2, h3, h4⟩

theorem intText_ofNat (m : Nat) : (toString (Int.ofNat m)).data = (Nat.repr m).data := rfl

theorem intText_negSucc (m : Nat) :
    (toString (Int.negSucc m)).data = '-' :: (Nat.repr (m + 1)).data := rfl

theorem intText_spec (i : Int) :
    (toString i).data ≠ [] ∧ ∀ c ∈ (toString i).data, isSizeChar c = true := by
  cases i with
  | ofNat m =>
      obtain ⟨h1, h2, _⟩ := natRepr_spec m
      rw [intText_ofNat]
      refine ⟨h1, ?_⟩
      intro c hc
      simp [isSizeChar, h2 c hc]
  | negSucc m =>
      obtain ⟨_, h2, _⟩ := natRepr_spec (m + 1)
      rw [intText_negSucc]
      refine ⟨by simp, ?_⟩
      intro c hc
      rcases List.mem_cons.mp hc with rfl | hc
      · decide
      · simp [isSizeChar, h2 c hc]

theorem intText_injective (i j : Int) (h : (toString i).data = (toString j).data) :
    i = j := by
  cases i with
  | ofNat m =>
      cases j with
      | ofNat k =>
          rw [intText_ofNat, intText_ofNat] at h
          have := congrArg digitsValue h
          rw [(natRepr_spec m).2.2, (natRepr_spec k).2.2] at this
          rw [this]
      | negSucc k =>
          rw [intText_ofNat, intText_negSucc] at h
          obtain ⟨h1, h2, _⟩ := natRepr_spec m
          have hmem : '-' ∈ (Nat.repr m).data := by rw [h]; simp
          have hd := h2 '-' hmem
          exact absurd hd (by decide)
  | negSucc m =>
      cases j with
      | ofNat k =>
          rw [intText_ofNat, intText_negSucc] at h
          obtain ⟨h1, h2, _⟩ := natRepr_spec k
          have hmem : '-' ∈ (Nat.repr k).data := by rw [← h]; simp
          have hd := h2 '-' hmem
          exact absurd hd (by decide)
      | negSucc k =>
          rw [intText_negSucc, intText_negSucc] at h
          simp only [List.cons.injEq, true_and] at h
          have := congrArg digitsValue h
          rw [(natRepr_spec (m + 1)).2.2, (natRepr_spec (k + 1)).2.2] at this
          have hmk : m = k := by omega
          rw [hmk]

end jitrt

namespace jitrt

/-! ## The characters of a printed shape -/

theorem foldl_data_shapeTail :
    ∀ (ds : List Int) (acc : String) (e : List Char),
      (ds.foldl (fun os d => os ++ "x" ++ toString d) acc).data ++ 'x' :: e =
        acc.data ++ shapeTail ds e := by
  intro ds
  induction ds with
  | nil => intro acc e; rfl
  | cons d ds ih =>
      intro acc e
      simp only [List.foldl_cons, ih, shapeTail, String.data_append, List.append_assoc]
      rfl

theorem print_arr_data (sizes : List Int) (e : List Char) :
    (print_arr sizes).data ++ 'x' :: e = shapeBody sizes e := by
  cases sizes with
  | nil => rfl
  | cons d ds =>
      simp only [print_arr, shapeBody]
      exact foldl_data_shapeTail ds _ e

theorem split_unique (p : Char → Bool) :
    ∀ (a a1 r r1 : List Char) (c c1 : Char),
      (∀ x ∈ a, p x = true) → (∀ x ∈ a1, p x = true) → p c = false → p c1 = false →
      a ++ c :: r = a1 ++ c1 :: r1 → a = a1 ∧ c :: r = c1 :: r1 := by
  intro a
  induction a with
  | nil =>
      intro a1 r r1 c c1 _ ha1 hc _ h
      cases a1 with
      | nil => exact ⟨rfl, h⟩
      | cons y a1 =>
          simp only [List.nil_append, List.cons_append, List.cons.injEq] at h
          have := ha1 y (by simp)
          rw [← h.1, hc] at this
          cases this
  | cons x a ih =>
      intro a1 r r1 c c1 ha ha1 hc hc1 h
      cases a1 with
      | nil =>
          simp only [List.nil_append, List.cons_append, List.cons.injEq] at h
          have := ha x (by simp)
          rw [h.1, hc1] at this
          cases this
      | cons y a1 =>
          simp only [List.cons_append, List.cons.injEq] at h
          obtain ⟨hxy, h⟩ := h
          obtain ⟨h1, h2⟩ := ih a1 r r1 c c1
            (fun z hz => ha z (List.mem_cons_of_mem _ hz))
            (fun z hz => ha1 z (List.mem_cons_of_mem _ hz)) hc hc1 h
          exact ⟨by rw [hxy, h1], h2⟩

theorem shapeTail_head (ds : List Int) (e : List Char) :
    ∃ r, shapeTail ds e = 'x' :: r := by
  cases ds with
  | nil => exact ⟨e, rfl⟩
  | cons d ds => exact ⟨_, rfl⟩

theorem shapeTail_injective :
    ∀ (ds ds1 : List Int) (e e1 : List Char),
      (∃ c r, e = c :: r ∧ c.isAlpha = true) →
      (∃ c r, e1 = c :: r ∧ c.isAlpha = true) →
      shapeTail ds e = shapeTail ds1 e1 → ds = ds1 ∧ e = e1 := by
  intro ds
  induction ds with
  | nil =>
      intro ds1 e e1 he he1 h
      cases ds1 with
      | nil =>
          simp only [shapeTail, List.cons.injEq, true_and] at h
          exact ⟨rfl, h⟩
      | cons d1 ds1 =>
          exfalso
          simp only [shapeTail, List.cons.injEq, true_and] at h
          obtain ⟨c, r, rfl, hc⟩ := he
          obtain ⟨hne, hall⟩ := intText_spec d1
          cases hd : (toString d1).data with
          | nil => exact hne hd
          | cons y ys =>
              rw [hd] at h hall
              simp only [List.cons_append, List.cons.injEq] at h
              have := hall y (by simp)
              rw [← h.1, isAlpha_not_sizeChar c hc] at this
              cases this
  | cons d ds ih =>
      intro ds1 e e1 he he1 h
      cases ds1 with
      | nil =>
          exfalso
          simp only [shapeTail, List.cons.injEq, true_and] at h
          obtain ⟨c, r, rfl, hc⟩ := he1
          obtain ⟨hne, hall⟩ := intText_spec d
          cases hd : (toString d).data with
          | nil => exact hne hd
          | cons y ys =>
              rw [hd] at h hall
              simp only [List.cons_append, List.cons.injEq] at h
              have := hall y (by simp)
              rw [h.1, isAlpha_not_sizeChar c hc] at this
              cases this
      | cons d1 ds1 =>
          simp only [shapeTail, List.cons.injEq, true_and] at h
          obtain ⟨r, hr⟩ := shapeTail_head ds e
          obtain ⟨r1, hr1⟩ := shapeTail_head ds1 e1
          rw [hr, hr1] at h
          obtain ⟨h1, h2⟩ := split_unique isSizeChar _ _ r r1 'x' 'x'
            (intText_spec d).2 (intText_spec d1).2 (by decide) (by decide) h
          rw [← hr, ← hr1] at h2
          obtain ⟨h3, h4⟩ := ih ds1 e e1 he he1 h2
          exact ⟨by rw [intText_injective d d1 h1, h3], h4⟩

theorem shapeBody_injective (s s1 : List Int) (e e1 : List Char)
    (he : ∃ c r, e = c :: r ∧ c.isAlpha = true)
    (he1 : ∃ c r, e1 = c :: r ∧ c.isAlpha = true)
    (h : shapeBody s e = shapeBody s1 e1) : s = s1 ∧ e = e1 := by
  have hx : isSizeChar 'x' = false := by decide
  cases s with
  | nil =>
      cases s1 with
      | nil =>
          simp only [shapeBody, List.cons.injEq, true_and] at h
          exact ⟨rfl, h⟩
      | cons d1 ds1 =>
          exfalso
          simp only [shapeBody] at h
          obtain ⟨hne, hall⟩ := intText_spec d1
          cases hd : (toString d1).data with
          | nil => exact hne hd
          | cons y ys =>
              rw [hd] at h hall
              simp only [List.cons_append, List.cons.injEq] at h
              have := hall y (by simp)
              rw [← h.1, hx] at this
              cases this
  | cons d ds =>
      cases s1 with
      | nil =>
          exfalso
          simp only [shapeBody] at h
          obtain ⟨hne, hall⟩ := intText_spec d
          cases hd : (toString d).data with
          | nil => exact hne hd
          | cons y ys =>
              rw [hd] at h hall
              simp only [List.cons_append, List.cons.injEq] at h
              have := hall y (by simp)
              rw [h.1, hx] at this
              cases this
      | cons d1 ds1 =>
          simp only [shapeBody] at h
          obtain ⟨r, hr⟩ := shapeTail_head ds e
          obtain ⟨r1, hr1⟩ := shapeTail_head ds1 e1
          rw [hr, hr1] at h
          obtain ⟨h1, h2⟩ := split_unique isSizeChar _ _ r r1 'x' 'x'
            (intText_spec d).2 (intText_spec d1).2 hx hx h
          rw [← hr, ← hr1] at h2
          obtain ⟨h3, h4⟩ := shapeTail_injective ds ds1 e e1 he he1 h2
          exact ⟨by rw [intText_injective d d1 h1, h3], h4⟩

theorem shapeBody_head (s : List Int) (e : List Char) :
    ∃ c r, shapeBody s e = c :: r ∧ (c = 'x' ∨ isSizeChar c = true) := by
  cases s with
  | nil => exact ⟨'x', e, rfl, Or.inl rfl⟩
  | cons d ds =>
      obtain ⟨hne, hall⟩ := intText_spec d
      cases hd : (toString d).data with
      | nil => exact absurd hd hne
      | cons y ys =>
          rw [hd] at hall
          exact ⟨y, ys ++ shapeTail ds e, by simp [shapeBody, hd],
            Or.inr (hall y (by simp))⟩

end jitrt

namespace jitrt

/-! ## Injectivity of printing -/

theorem printType_data_token (dtypeText : DType → String) :
    (printType dtypeText .AsyncTokenType).data =
      ['!', 'a', 's', 'y', 'n', 'c', '.', 't', 'o', 'k', 'e', 'n'] := rfl

theorem printType_data_kernel (dtypeText : DType → String) :
    (printType dtypeText .KernelContextOperandType).data =
      ['!', 'r', 't', '.', 'k', 'e', 'r', 'n', 'e', 'l', '_', 'c', 'o', 'n', 't', 'e',
        'x', 't'] := rfl

theorem printType_data_value (dtypeText : DType → String) (v : RuntimeType) :
    (printType dtypeText (.AsyncValueType v)).data =
      ['!', 'a', 's', 'y', 'n', 'c', '.', 'v', 'a', 'l', 'u', 'e', '<'] ++
        ((printType dtypeText v).data ++ ['>']) := by
  simp only [printType, String.data_append]
  rfl

theorem printType_data_ranked (dtypeText : DType → String) (s : List Int) (E : DType) :
    (printType dtypeText (.RankedTensorType s E)).data =
      ['t', 'e', 'n', 's', 'o', 'r', '<'] ++
        shapeBody s ((dtypeText E).data ++ ['>']) := by
  rw [← print_arr_data]
  simp only [printType, String.data_append, List.append_assoc]
  rfl

theorem printType_data_memref (dtypeText : DType → String) (s : List Int) (E : DType) :
    (printType dtypeText (.MemrefType s E)).data =
      ['m', 'e', 'm', 'r', 'e', 'f', '<'] ++
        shapeBody s ((dtypeText E).data ++ ['>']) := by
  rw [← print_arr_data]
  simp only [printType, String.data_append, List.append_assoc]
  rfl

theorem printType_data_unranked (dtypeText : DType → String) (E : DType) :
    (printType dtypeText (.UnrankedTensorType E)).data =
      ['t', 'e', 'n', 's', 'o', 'r', '<'] ++
        ('*' :: 'x' :: ((dtypeText E).data ++ ['>'])) := by
  simp only [printType, String.data_append, List.append_assoc]
  rfl

theorem printType_data_unranked_memref (dtypeText : DType → String) (E : DType) :
    (printType dtypeText (.UnrankedMemrefType E)).data =
      ['m', 'e', 'm', 'r', 'e', 'f', '<'] ++
        ('*' :: 'x' :: ((dtypeText E).data ++ ['>'])) := by
  simp only [printType, String.data_append, List.append_assoc]
  rfl

theorem shapeBody_ne_star (s : List Int) (e r : List Char) :
    shapeBody s e ≠ '*' :: r := by
  intro h
  obtain ⟨c, r1, h1, h2⟩ := shapeBody_head s e
  rw [h1] at h
  simp only [List.cons.injEq] at h
  rcases h2 with h2 | h2
  · rw [h2] at h; exact absurd h.1 (by decide)
  · rw [h.1] at h2; exact absurd h2 (by decide)

theorem element_text_letter (dtypeText : DType → String)
    (hletter : ∀ d, ∃ c rest, (dtypeText d).data = c :: rest ∧ c.isAlpha = true)
    (E : DType) :
    ∃ c r, (dtypeText E).data ++ ['>'] = c :: r ∧ c.isAlpha = true := by
  obtain ⟨c, rest, h1, h2⟩ := hletter E
  exact ⟨c, rest ++ ['>'], by simp [h1], h2⟩

theorem element_text_injective (dtypeText : DType → String)
    (hinj : Function.Injective dtypeText) (E E1 : DType)
    (h : (dtypeText E).data ++ ['>'] = (dtypeText E1).data ++ ['>']) : E = E1 := by
  have h1 : (dtypeText E).data = (dtypeText E1).data := List.append_cancel_right h
  exact hinj (String.ext h1)

theorem printType_data_injective (dtypeText : DType → String)
    (hinj : Function.Injective dtypeText)
    (hletter : ∀ d, ∃ c rest, (dtypeText d).data = c :: rest ∧ c.isAlpha = true) :
    ∀ r1 r2 : RuntimeType,
      (printType dtypeText r1).data = (printType dtypeText r2).data → r1 = r2 := by
  intro r1
  induction r1 with
  | AsyncTokenType =>
      intro r2 h
      cases r2 with
      | AsyncTokenType => rfl
      | AsyncValueType v => rw [printType_data_token, printType_data_value] at h; simp at h
      | RankedTensorType s E =>
          rw [printType_data_token, printType_data_ranked] at h; simp at h
      | UnrankedTensorType E =>
          rw [printType_data_token, printType_data_unranked] at h; simp at h
      | MemrefType s E =>
          rw [printType_data_token, printType_data_memref] at h; simp at h
      | UnrankedMemrefType E =>
          rw [printType_data_token, printType_data_unranked_memref] at h; simp at h
      | KernelContextOperandType =>
          rw [printType_data_token, printType_data_kernel] at h; simp at h
  | KernelContextOperandType =>
      intro r2 h
      cases r2 with
      | KernelContextOperandType => rfl
      | AsyncValueType v => rw [printType_data_kernel, printType_data_value] at h; simp at h
      | RankedTensorType s E =>
          rw [printType_data_kernel, printType_data_ranked] at h; simp at h
      | UnrankedTensorType E =>
          rw [printType_data_kernel, printType_data_unranked] at h; simp at h
      | MemrefType s E =>
          rw [printType_data_kernel, printType_data_memref] at h; simp at h
      | UnrankedMemrefType E =>
          rw [printType_data_kernel, printType_data_unranked_memref] at h; simp at h
      | AsyncTokenType =>
          rw [printType_data_token, printType_data_kernel] at h; simp at h
  | AsyncValueType v ih =>
      intro r2 h
      cases r2 with
      | AsyncValueType v1 =>
          rw [printType_data_value, printType_data_value] at h
          have h1 := List.append_cancel_right (List.append_cancel_left h)
          rw [ih v1 h1]
      | AsyncTokenType => rw [printType_data_token, printType_data_value] at h; simp at h
      | KernelContextOperandType =>
          rw [printType_data_kernel, printType_data_value] at h; simp at h
      | RankedTensorType s E =>
          rw [printType_data_value, printType_data_ranked] at h; simp at h
      | UnrankedTensorType E =>
          rw [printType_data_value, printType_data_unranked] at h; simp at h
      | MemrefType s E =>
          rw [printType_data_value, printType_data_memref] at h; simp at h
      | UnrankedMemrefType E =>
          rw [printType_data_value, printType_data_unranked_memref] at h; simp at h
  | RankedTensorType s E =>
      intro r2 h
      cases r2 with
      | RankedTensorType s1 E1 =>
          rw [printType_data_ranked, printType_data_ranked] at h
          obtain ⟨h1, h2⟩ := shapeBody_injective s s1 _ _
            (element_text_letter dtypeText hletter E)
            (element_text_letter dtypeText hletter E1) (List.append_cancel_left h)
          rw [h1, element_text_injective dtypeText hinj E E1 h2]
      | UnrankedTensorType E1 =>
          rw [printType_data_ranked, printType_data_unranked] at h
          exact absurd (List.append_cancel_left h) (shapeBody_ne_star _ _ _)
      | AsyncTokenType => rw [printType_data_token, printType_data_ranked] at h; simp at h
      | KernelContextOperandType =>
          rw [printType_data_kernel, printType_data_ranked] at h; simp at h
      | AsyncValueType v =>
          rw [printType_data_value, printType_data_ranked] at h; simp at h
      | MemrefType s1 E1 =>
          rw [printType_data_ranked, printType_data_memref] at h; simp at h
      | UnrankedMemrefType E1 =>
          rw [printType_data_ranked, printType_data_unranked_memref] at h; simp at h
  | MemrefType s E =>
      intro r2 h
      cases r2 with
      | MemrefType s1 E1 =>
          rw [printType_data_memref, printType_data_memref] at h
          obtain ⟨h1, h2⟩ := shapeBody_injective s s1 _ _
            (element_text_letter dtypeText hletter E)
            (element_text_letter dtypeText hletter E1) (List.append_cancel_left h)
          rw [h1, element_text_injective dtypeText hinj E E1 h2]
      | UnrankedMemrefType E1 =>
          rw [printType_data_memref, printType_data_unranked_memref] at h
          exact absurd (List.append_cancel_left h) (shapeBody_ne_star _ _ _)
      | AsyncTokenType => rw [printType_data_token, printType_data_memref] at h; simp at h
      | KernelContextOperandType =>
          rw [printType_data_kernel, printType_data_memref] at h; simp at h
      | AsyncValueType v =>
          rw [printType_data_value, printType_data_memref] at h; simp at h
      | RankedTensorType s1 E1 =>
          rw [printType_data_ranked, printType_data_memref] at h; simp at h
      | UnrankedTensorType E1 =>
          rw [printType_data_memref, printType_data_unranked] at h; simp at h
  | UnrankedTensorType E =>
      intro r2 h
      cases r2 with
      | UnrankedTensorType E1 =>
          rw [printType_data_unranked, printType_data_unranked] at h
          have h1 := List.append_cancel_left h
          simp only [List.cons.injEq, true_and] at h1
          rw [element_text_injective dtypeText hinj E E1 h1]
      | RankedTensorType s1 E1 =>
          rw [printType_data_ranked, printType_data_unranked] at h
          exact absurd (List.append_cancel_left h).symm (shapeBody_ne_star _ _ _)
      | AsyncTokenType => rw [printType_data_token, printType_data_unranked] at h; simp at h
      | KernelContextOperandType =>
          rw [printType_data_kernel, printType_data_unranked] at h; simp at h
      | AsyncValueType v =>
          rw [printType_data_value, printType_data_unranked] at h; simp at h
      | MemrefType s1 E1 =>
          rw [printType_data_memref, printType_data_unranked] at h; simp at h
      | UnrankedMemrefType E1 =>
          rw [printType_data_unranked, printType_data_unranked_memref] at h; simp at h
  | UnrankedMemrefType E =>
      intro r2 h
      cases r2 with
      | UnrankedMemrefType E1 =>
          rw [printType_data_unranked_memref, printType_data_unranked_memref] at h
          have h1 := List.append_cancel_left h
          simp only [List.cons.injEq, true_and] at h1
          rw [element_text_injective dtypeText hinj E E1 h1]
      | MemrefType s1 E1 =>
          rw [printType_data_memref, printType_data_unranked_memref] at h
          exact absurd (List.append_cancel_left h).symm (shapeBody_ne_star _ _ _)
      | AsyncTokenType =>
          rw [printType_data_token, printType_data_unranked_memref] at h; simp at h
      | KernelContextOperandType =>
          rw [printType_data_kernel, printType_data_unranked_memref] at h; simp at h
      | AsyncValueType v =>
          rw [printType_data_value, printType_data_unranked_memref] at h; simp at h
      | RankedTensorType s1 E1 =>
          rw [printType_data_ranked, printType_data_unranked_memref] at h; simp at h
      | UnrankedTensorType E1 =>
          rw [printType_data_unranked, printType_data_unranked_memref] at h; simp at h

end jitrt

namespace jitrt

theorem dtypeName_injective : Function.Injective dtypeName := by
  intro a b h
  cases a <;> cases b <;> first | rfl | exact absurd h (by decide)

theorem dtypeName_letter (d : DType) :
    ∃ c rest, (dtypeName d).data = c :: rest ∧ c.isAlpha = true := by
  cases d <;> exact ⟨_, _, rfl, by decide⟩

/-- C19. Printing is injective on runtime types: when the printer of `DType` is
injective and every element name starts with a letter, two runtime types with
the same printed text are equal (same variant, same list of sizes, same
element, same wrapped type); in particular the rank-0, rank-n and unranked
forms and the tensor and memref forms never print alike. -/
theorem printType_injective (dtypeText : DType → String)
    (hinj : Function.Injective dtypeText)
    (hletter : ∀ d, ∃ c rest, (dtypeText d).data = c :: rest ∧ c.isAlpha = true) :
    (∀ r1 r2 : RuntimeType,
      printType dtypeText r1 = printType dtypeText r2 → r1 = r2) ∧
    (∀ (d : Int) (ds : List Int) (E E1 : DType),
      printType dtypeText (.RankedTensorType [] E) ≠
          printType dtypeText (.RankedTensorType (d :: ds) E1) ∧
      printType dtypeText (.RankedTensorType [] E) ≠
          printType dtypeText (.UnrankedTensorType E1) ∧
      printType dtypeText (.RankedTensorType (d :: ds) E) ≠
          printType dtypeText (.UnrankedTensorType E1) ∧
      printType dtypeText (.RankedTensorType (d :: ds) E) ≠
          printType dtypeText (.MemrefType (d :: ds) E) ∧
      printType dtypeText (.UnrankedTensorType E) ≠
          printType dtypeText (.UnrankedMemrefType E)) := by
  have main : ∀ r1 r2 : RuntimeType,
      printType dtypeText r1 = printType dtypeText r2 → r1 = r2 := by
    intro r1 r2 h
    exact printType_data_injective dtypeText hinj hletter r1 r2 (congrArg String.data h)
  refine ⟨main, ?_⟩
  intro d ds E E1
  refine ⟨?_, ?_, ?_, ?_, ?_⟩ <;> intro h <;> have h1 := main _ _ h <;> cases h1

/-- Witness of C19: with the lower-case element names, `tensor<2xf32>` and
`memref<2xf32>` are told apart, and equal texts give equal types. -/
theorem printType_injective_witness :
    (∀ r1 r2 : RuntimeType,
      printType dtypeName r1 = printType dtypeName r2 → r1 = r2) ∧
    printType dtypeName (.RankedTensorType (2 :: []) .F32) ≠
      printType dtypeName (.MemrefType (2 :: []) .F32) :=
  ⟨(printType_injective dtypeName dtypeName_injective dtypeName_letter).1,
   ((printType_injective dtypeName dtypeName_injective dtypeName_letter).2
      2 [] .F32 .F32).2.2.2.1⟩

end jitrt

namespace jitrt

/-! ## The engine modelled from the specification -/

theorem lookupHandle_head {F : Type} [DecidableEq F] (key : List (ArgSpecialization F))
    (h : ExecutableHandle F)
    (rest : List (List (ArgSpecialization F) × ExecutableHandle F)) :
    lookupHandle key ((key, h) :: rest) = some h := by
  simp [lookupHandle]

/-- On the modelled engine, a program that parses, whose signature converts,
that the pipeline rejects unspecialized and lowers once specialized for the
arguments: `Instantiate` succeeds with the default slot in error, and
`GetExecutable` inserts a pending handle that compilation makes ready. -/
theorem engine_specialized_ready {F : Type} [DecidableEq F]
    (irText : MType → String) (program : Program F) (specialization : Specialization)
    (args : List (MemrefDesc F)) (signature : FunctionType) (diagnostics : String)
    (native : NativeFunction F)
    (hparses : program.parses = true)
    (hsignature : FunctionType.Convert irText program.signature = .ok signature)
    (hdefault : program.lower (program.constraints.map (fun _ => .Unspecialized)) =
      .error diagnostics)
    (hspecialized : program.lower (fingerprint program.constraints args) = .ok native)
    (hcount : args.length = signature.operands.length)
    (hrank : (List.zipWith rankConsistent signature.operands args).all id = true) :
    ∃ jit : JitExecutable F,
      JitExecutable.Instantiate irText program specialization = .ok jit ∧
      jit.DefaultExecutable = .Error diagnostics ∧
      ∃ jit1 : JitExecutable F,
        jit.GetExecutable args = .ok (fingerprint program.constraints args, jit1) ∧
        lookupHandle (fingerprint program.constraints args) jit1.cache =
          some .Compiling ∧
        lookupHandle (fingerprint program.constraints args)
            (jit1.completeCompilation (fingerprint program.constraints args)).cache =
          some (.Ready { signature := signature, native := native }) := by
  refine ⟨{ program := program
            specialization := specialization
            signature := signature
            default_executable := .Error diagnostics
            cache := [] }, ?_, rfl, ?_⟩
  · simp only [JitExecutable.Instantiate, hparses, Bool.not_true, Bool.false_eq_true,
      if_false, hsignature, compile, hdefault]
  · refine ⟨{ program := program
              specialization := specialization
              signature := signature
              default_executable := .Error diagnostics
              cache := [(fingerprint program.constraints args, .Compiling)] }, ?_, ?_, ?_⟩
    · simp [JitExecutable.GetExecutable, hcount, hrank, lookupHandle]
    · exact lookupHandle_head _ _ _
    · simp only [JitExecutable.completeCompilation, List.map_cons, List.map_nil, if_true,
        compile, hspecialized]
      exact lookupHandle_head _ _ _

end jitrt
namespace jitrt

/-- C13. Specialization-required detection, on the engine modelled from the
specification: for a program that parses, whose entry signature converts,
with a value-constrained argument, that the pipeline cannot lower
unspecialized but can lower once the constrained arguments of the call are
embedded, `Instantiate` succeeds, `DefaultExecutable` is in the error state,
and `GetExecutable` with arguments matching the signature returns a pending
handle that becomes ready, without error, when its compilation completes. -/
theorem specialization_required_detected {F : Type} [DecidableEq F]
    (irText : MType → String) (program : Program F) (specialization : Specialization)
    (args : List (MemrefDesc F)) (signature : FunctionType) (diagnostics : String)
    (native : NativeFunction F)
    (hparses : program.parses = true)
    (hsignature : FunctionType.Convert irText program.signature = .ok signature)
    (_hvalue : SpecializationConstraint.Value ∈ program.constraints)
    (hdefault : program.lower (program.constraints.map (fun _ => .Unspecialized)) =
      .error diagnostics)
    (hspecialized : program.lower (fingerprint program.constraints args) = .ok native)
    (hcount : args.length = signature.operands.length)
    (hrank : (List.zipWith rankConsistent signature.operands args).all id = true) :
    ∃ jit : JitExecutable F,
      JitExecutable.Instantiate irText program specialization = .ok jit ∧
      jit.DefaultExecutable = .Error diagnostics ∧
      ∃ jit1 : JitExecutable F,
        jit.GetExecutable args = .ok (fingerprint program.constraints args, jit1) ∧
        lookupHandle (fingerprint program.constraints args) jit1.cache =
          some .Compiling ∧
        lookupHandle (fingerprint program.constraints args)
            (jit1.completeCompilation (fingerprint program.constraints args)).cache =
          some (.Ready { signature := signature, native := native }) :=
  engine_specialized_ready irText program specialization args signature diagnostics
    native hparses hsignature hdefault hspecialized hcount hrank

/-- Witness of C13: the program `compute` of the end-to-end test with the
arguments of the test. -/
theorem specialization_required_detected_witness :
    ∃ jit : JitExecutable Int,
      JitExecutable.Instantiate irTypeText (computeProgram Int) .Enabled = .ok jit ∧
      jit.DefaultExecutable =
        .Error "tosa.transpose: the permutation must be a constant" ∧
      ∃ jit1 : JitExecutable Int,
        jit.GetExecutable [testInput 1 2 3 4, testPermutation Int] =
          .ok (fingerprint (computeProgram Int).constraints
            [testInput 1 2 3 4, testPermutation Int], jit1) ∧
        lookupHandle (fingerprint (computeProgram Int).constraints
            [testInput 1 2 3 4, testPermutation Int]) jit1.cache = some .Compiling ∧
        lookupHandle (fingerprint (computeProgram Int).constraints
            [testInput 1 2 3 4, testPermutation Int])
            (jit1.completeCompilation (fingerprint (computeProgram Int).constraints
              [testInput 1 2 3 4, testPermutation Int])).cache =
          some (.Ready { signature := computeSignature, native := transposeNative }) :=
  specialization_required_detected irTypeText (computeProgram Int) .Enabled
    [testInput 1 2 3 4, testPermutation Int] computeSignature
    "tosa.transpose: the permutation must be a constant" transposeNative
    rfl rfl (by decide) rfl rfl rfl rfl

theorem transposed_get2 {F : Type} [Inhabited F] (input : MemrefDesc F) (r c i j : Nat)
    (hi : i < c) (hj : j < r) :
    ((List.range (c * r)).map (fun k => input.get2 (k % r) (k / r))).getD (i * r + j)
        (Scalar.F32 default) =
      input.get2 j i := by
  have hlt : i * r + j < c * r := by
    calc i * r + j < i * r + r := by omega
      _ = (i + 1) * r := by ring
      _ ≤ c * r := Nat.mul_le_mul_right r hi
  have hmod : (i * r + j) % r = j := by
    rw [Nat.add_comm, Nat.add_mul_mod_self_right]
    exact Nat.mod_eq_of_lt hj
  have hdiv : (i * r + j) / r = i := by
    rw [Nat.add_comm, Nat.add_mul_div_right _ _ (by omega : 0 < r)]
    rw [Nat.div_eq_of_lt hj]
    omega
  rw [List.getD_eq_getElem?_getD, List.getElem?_map, List.getElem?_range hlt]
  simp only [Option.map_some', Option.getD_some, hmod, hdiv]

end jitrt

namespace jitrt

/-- C12. End-to-end transpose, on the engine modelled from the specification:
for the program `compute` and the permutation `[1, 0]`, with every 2-D `f32`
input, `Instantiate` and `GetExecutable` give a handle that becomes ready,
`Execute` returns no error and resolves its single result to an `F32` tensor
with as many elements as the input, whose element `(i, j)` is the element
`(j, i)` of the input; for the dense 2x2 input with row-major data
`a, b, c, d` (the test's `1, 2, 3, 4`) the result data is `a, c, b, d` (the
test's `1, 3, 2, 4`). -/
theorem end_to_end_transpose {F : Type} [DecidableEq F] [Inhabited F]
    (irText : MType → String) (specialization : Specialization) :
    (∀ (input : MemrefDesc F) (rows cols : Nat),
      input.dtype = .F32 → input.sizes = [rows, cols] →
      ∃ (jit jit1 : JitExecutable F) (executable : Executable F)
          (out : DenseHostTensor F),
        JitExecutable.Instantiate irText (computeProgram F) specialization = .ok jit ∧
        jit.GetExecutable [input, testPermutation F] =
          .ok (fingerprint (computeProgram F).constraints
            [input, testPermutation F], jit1) ∧
        lookupHandle (fingerprint (computeProgram F).constraints
            [input, testPermutation F])
            (jit1.completeCompilation (fingerprint (computeProgram F).constraints
              [input, testPermutation F])).cache = some (.Ready executable) ∧
        executable.Execute [input, testPermutation F] [ReturnMemrefAsDenseHostTensor] =
          .ok [.ok out] ∧
        out.dtype = .F32 ∧ out.shape = [cols, rows] ∧
        out.NumElements = rows * cols ∧
        ∀ i j : Nat, i < cols → j < rows → out.get2 i j = input.get2 j i) ∧
    (∀ a b c d : F,
      ∃ (jit jit1 : JitExecutable F) (executable : Executable F),
        JitExecutable.Instantiate irText (computeProgram F) specialization = .ok jit ∧
        jit.GetExecutable [testInput a b c d, testPermutation F] =
          .ok (fingerprint (computeProgram F).constraints
            [testInput a b c d, testPermutation F], jit1) ∧
        lookupHandle (fingerprint (computeProgram F).constraints
            [testInput a b c d, testPermutation F])
            (jit1.completeCompilation (fingerprint (computeProgram F).constraints
              [testInput a b c d, testPermutation F])).cache =
          some (.Ready executable) ∧
        executable.Execute [testInput a b c d, testPermutation F]
            [ReturnMemrefAsDenseHostTensor] =
          .ok [.ok { dtype := .F32, shape := [2, 2],
                     data := [.F32 a, .F32 c, .F32 b, .F32 d] }]) := by
  have hsig : FunctionType.Convert irText (computeProgram F).signature =
      .ok computeSignature := rfl
  have key : ∀ input : MemrefDesc F, input.dtype = .F32 →
      (∃ rows cols, input.sizes = [rows, cols]) →
      ∃ (jit jit1 : JitExecutable F),
        JitExecutable.Instantiate irText (computeProgram F) specialization = .ok jit ∧
        jit.GetExecutable [input, testPermutation F] =
          .ok (fingerprint (computeProgram F).constraints
            [input, testPermutation F], jit1) ∧
        lookupHandle (fingerprint (computeProgram F).constraints
            [input, testPermutation F])
            (jit1.completeCompilation (fingerprint (computeProgram F).constraints
              [input, testPermutation F])).cache =
          some (.Ready { signature := computeSignature, native := transposeNative }) := by
    intro input _ hsizes
    obtain ⟨rows, cols, hsizes⟩ := hsizes
    obtain ⟨jit, h1, _, jit1, h2, _, h3⟩ :=
      engine_specialized_ready irText (computeProgram F) specialization
        [input, testPermutation F] computeSignature
        "tosa.transpose: the permutation must be a constant" transposeNative
        rfl hsig rfl rfl rfl (by simp [computeSignature, rankConsistent, hsizes, testPermutation])
    exact ⟨jit, jit1, h1, h2, h3⟩
  refine ⟨?_, ?_⟩
  · intro input rows cols hdtype hsizes
    obtain ⟨jit, jit1, h1, h2, h3⟩ := key input hdtype ⟨rows, cols, hsizes⟩
    obtain ⟨dtype, data, offset, sizes, strides⟩ := input
    simp only at hdtype hsizes
    subst hdtype hsizes
    refine ⟨jit, jit1, _,
      { dtype := .F32, shape := [cols, rows],
        data := (List.range (cols * rows)).map
          (fun k => MemrefDesc.get2
            { dtype := .F32, data := data, offset := offset, sizes := [rows, cols],
              strides := strides } (k % rows) (k / rows)) },
      h1, h2, h3, ?_, rfl, rfl, ?_, ?_⟩
    · simp [Executable.Execute, computeSignature, argumentMatches, testPermutation,
        transposeNative, convertResult, ReturnMemrefAsDenseHostTensor]
    · simp [DenseHostTensor.NumElements, Nat.mul_comm]
    · intro i j hi hj
      simp only [DenseHostTensor.get2, List.getD_cons_succ, List.getD_cons_zero]
      exact transposed_get2 _ rows cols i j hi hj
  · intro a b c d
    obtain ⟨jit, jit1, h1, h2, h3⟩ := key (testInput a b c d) rfl ⟨2, 2, rfl⟩
    refine ⟨jit, jit1, _, h1, h2, h3, ?_⟩
    simp [Executable.Execute, computeSignature, argumentMatches, testPermutation,
      testInput, transposeNative, convertResult, ReturnMemrefAsDenseHostTensor,
      MemrefDesc.get2, List.range, List.range.loop]

end jitrt

namespace jitrt

/-- Witness of C12: the arguments of the end-to-end test, input `{1, 2, 3, 4}`
as a 2x2 memref and permutation `{1, 0}`; the result data is `{1, 3, 2, 4}`. -/
theorem end_to_end_transpose_witness :
    (∃ (jit jit1 : JitExecutable Int) (executable : Executable Int)
        (out : DenseHostTensor Int),
      JitExecutable.Instantiate irTypeText (computeProgram Int) .Enabled = .ok jit ∧
      jit.GetExecutable [testInput 1 2 3 4, testPermutation Int] =
        .ok (fingerprint (computeProgram Int).constraints
          [testInput 1 2 3 4, testPermutation Int], jit1) ∧
      lookupHandle (fingerprint (computeProgram Int).constraints
          [testInput 1 2 3 4, testPermutation Int])
          (jit1.completeCompilation (fingerprint (computeProgram Int).constraints
            [testInput 1 2 3 4, testPermutation Int])).cache =
        some (.Ready executable) ∧
      executable.Execute [testInput 1 2 3 4, testPermutation Int]
          [ReturnMemrefAsDenseHostTensor] = .ok [.ok out] ∧
      out.dtype = .F32 ∧ out.shape = [2, 2] ∧ out.NumElements = 2 * 2 ∧
      ∀ i j : Nat, i < 2 → j < 2 →
        out.get2 i j = (testInput (1 : Int) 2 3 4).get2 j i) ∧
    (∃ (jit jit1 : JitExecutable Int) (executable : Executable Int),
      JitExecutable.Instantiate irTypeText (computeProgram Int) .Enabled = .ok jit ∧
      jit.GetExecutable [testInput 1 2 3 4, testPermutation Int] =
        .ok (fingerprint (computeProgram Int).constraints
          [testInput 1 2 3 4, testPermutation Int], jit1) ∧
      lookupHandle (fingerprint (computeProgram Int).constraints
          [testInput 1 2 3 4, testPermutation Int])
          (jit1.completeCompilation (fingerprint (computeProgram Int).constraints
            [testInput 1 2 3 4, testPermutation Int])).cache =
        some (.Ready executable) ∧
      executable.Execute [testInput 1 2 3 4, testPermutation Int]
          [ReturnMemrefAsDenseHostTensor] =
        .ok [.ok { dtype := .F32, shape := [2, 2],
                   data := [.F32 1, .F32 3, .F32 2, .F32 4] }]) :=
  ⟨(end_to_end_transpose irTypeText .Enabled).1 (testInput 1 2 3 4) 2 2 rfl rfl,
   (end_to_end_transpose irTypeText .Enabled).2 1 2 3 4⟩

end jitrt
